import Mathlib

set_option linter.unusedSectionVars false
set_option linter.unusedVariables false

/-!
Verification development for the Cedar schema subsystem
(`cedar-policy-validator/src/schema.rs` and
`cedar-policy-core/src/entities/json/err.rs`).

Modelling conventions:
* Namespaced names (`Name`) are the opaque output of the name-normalization
  collaborator; they are modelled as plain strings with structural equality.
* `HashMap`s are modelled as association lists (lookup returns the first
  match; insertion checks vacancy first, as `Entry` does in the source);
  `HashSet`s are modelled as `Finset`s.
* The ordered attribute maps (`Attributes`) are modelled by the explicit
  list-like type `TyAttrs`, mutually inductive with the type algebra, and
  `Option<Type>` for set element types by the mutually inductive `OTy`.
* Code of the repository that is not under `src/` (the transitive-closure
  engine `compute_tc`, the per-namespace fragment structures and
  `resolve_type_defs`) is modelled from the specification; each such
  definition carries a doc comment saying so.
-/

namespace CedarSchema

/-- A normalized, namespace-qualified identifier, e.g. `NS::Type`. -/
abbrev Name := String

/-- `EntityType` from the core AST: a concrete entity type name or the
unspecified entity type. -/
inductive EntityType where
  | concrete (name : Name)
  | unspecified
deriving DecidableEq

/-- `EntityUID`: pair of an entity type and an entity id. -/
structure EntityUID where
  ty : EntityType
  eid : String
deriving DecidableEq

/-- Rendering of an `EntityUID` as a string (`to_string` in the source). -/
def EntityUID.str (u : EntityUID) : String :=
  match u.ty with
  | .concrete n => n ++ "::" ++ u.eid
  | .unspecified => "?::" ++ u.eid

mutual
/-- The validator's type algebra (`crate::types::Type`): primitives, sets
with an optional element type, records carrying an ordered attribute map and
an open tag, entity types given by a least-upper-bound set of names, and
extension types. -/
inductive Ty where
  | bool
  | long
  | string
  | set (elementType : OTy)
  | record (attrs : TyAttrs) (isOpen : Bool)
  | entity (lub : List Name)
  | ext (name : Name)

/-- `Option<Type>`: the element type of a set, where `none` denotes the
unconstrained empty-set type. -/
inductive OTy where
  | none
  | some (ty : Ty)

/-- The ordered attribute map `Attributes`: a sequence of
(attribute name, attribute type, is-required) entries. -/
inductive TyAttrs where
  | nil
  | cons (name : String) (ty : Ty) (isRequired : Bool) (rest : TyAttrs)
end
deriving instance DecidableEq for Ty
deriving instance DecidableEq for OTy
deriving instance DecidableEq for TyAttrs

/-- View of an ordered attribute map as a list of entries. -/
def TyAttrs.toList : TyAttrs → List (String × Ty × Bool)
  | .nil => []
  | .cons n t r rest => (n, t, r) :: rest.toList

mutual
/-- Modelled from the spec: a schema type as written in a fragment, in which
common-type references (`common`) may still occur anywhere; they exist
transiently during merge and are substituted away by `resolveTypeDefs`. -/
inductive UTy where
  | bool
  | long
  | string
  | set (elementType : UOTy)
  | record (attrs : UTyAttrs) (isOpen : Bool)
  | entity (lub : List Name)
  | ext (name : Name)
  | common (name : Name)

/-- Modelled from the spec: optional element type of an unresolved set type. -/
inductive UOTy where
  | none
  | some (ty : UTy)

/-- Modelled from the spec: ordered attribute map of an unresolved record
type. -/
inductive UTyAttrs where
  | nil
  | cons (name : String) (ty : UTy) (isRequired : Bool) (rest : UTyAttrs)
end
deriving instance DecidableEq for UTy
deriving instance DecidableEq for UOTy
deriving instance DecidableEq for UTyAttrs

/-- The possible errors from schema construction (`SchemaError` in
`err.rs` of the validator), restricted to the variants produced by the code
under consideration. `ContextOrShape` identifies whose context or shape
failed to resolve to a record. -/
inductive ContextOrShape where
  | actionContext (action : EntityUID)
  | entityTypeShape (ty : Name)
deriving DecidableEq

inductive SchemaError where
  | duplicateCommonType (name : String)
  | duplicateEntityType (name : String)
  | duplicateAction (name : String)
  | cycleInActionHierarchy
  | undeclaredEntityTypes (types : Finset String)
  | undeclaredActions (actions : Finset String)
  | undeclaredCommonTypes (types : Finset String)
  | contextOrShapeNotRecord (which : ContextOrShape)
deriving DecidableEq

/-- A literal attribute value of an action (a `RestrictedExpr` of the core
AST, an external collaborator; only its identity matters here). -/
structure RestrictedExpr where
  val : String
deriving DecidableEq

/-- `ValidatorApplySpec`: the declared sets of permissible principal and
resource entity types of an action. -/
structure ValidatorApplySpec where
  principalApplySpec : List EntityType
  resourceApplySpec : List EntityType
deriving DecidableEq

/-- `ValidatorEntityType`: name, attribute types, and the descendant set
computed by hierarchy closure. -/
structure ValidatorEntityType where
  name : Name
  descendants : Finset Name
  attributes : TyAttrs
deriving DecidableEq

/-- `ValidatorActionId`: action identity, applies-to spec, descendant set,
closed-record context type, attribute types and literal attributes. -/
structure ValidatorActionId where
  name : EntityUID
  appliesTo : ValidatorApplySpec
  descendants : Finset EntityUID
  context : TyAttrs
  attributeTypes : List (String × Ty)
  attributes : List (String × RestrictedExpr)
deriving DecidableEq

/-- `ValidatorSchema`: the immutable result maps. -/
structure ValidatorSchema where
  entityTypes : List (Name × ValidatorEntityType)
  actionIds : List (EntityUID × ValidatorActionId)
deriving DecidableEq

/-- Modelled from the spec: a validator entity-type declaration as produced
by `ValidatorNamespaceDef` (in `namespace_def.rs`, not under `src/`): raw
parents and a not-yet-resolved shape type. -/
structure EntityTypeFragment where
  parents : List Name
  attributes : UTy
deriving DecidableEq

/-- Modelled from the spec: a validator action declaration as produced by
`ValidatorNamespaceDef`: applies-to spec, raw parents, not-yet-resolved
context type, attribute types and literal attributes. -/
structure ActionFragment where
  appliesTo : ValidatorApplySpec
  parents : List EntityUID
  context : UTy
  attributeTypes : List (String × Ty)
  attributes : List (String × RestrictedExpr)
deriving DecidableEq

/-- Modelled from the spec: one namespace-scoped bundle of already
namespace-qualified declarations (`ValidatorNamespaceDef`, in
`namespace_def.rs`, not under `src/`). -/
structure ValidatorNamespaceDef where
  typeDefs : List (Name × Ty)
  entityTypes : List (Name × EntityTypeFragment)
  actions : List (EntityUID × ActionFragment)
deriving DecidableEq

/-- `ValidatorSchemaFragment`: a vector of namespace definitions. -/
abbrev ValidatorSchemaFragment := List ValidatorNamespaceDef

/-! ## Association-list maps -/

/-- `HashMap` lookup: the first entry with the given key. -/
def assocFind {K V : Type} [DecidableEq K] (m : List (K × V)) (k : K) : Option V :=
  match m with
  | [] => Option.none
  | kv :: rest => if kv.1 = k then Option.some kv.2 else assocFind rest k

/-- Lookup with a default value (`unwrap_or_default`). -/
def assocFindD {K V : Type} [DecidableEq K] (m : List (K × V)) (k : K) (d : V) : V :=
  (assocFind m k).getD d

/-! ## Fragment merging (`ValidatorSchema::from_schema_fragments`, first
loop): build aggregate maps checking that nothing is defined twice. -/

/-- Insert into a vacant entry; a second definition of the same
fully-qualified key yields the duplicate-declaration error for that key. -/
def insertUnique {K V : Type} [DecidableEq K] (err : K → SchemaError)
    (m : List (K × V)) (k : K) (v : V) : Except SchemaError (List (K × V)) :=
  match assocFind m k with
  | Option.some _ => .error (err k)
  | Option.none => .ok ((k, v) :: m)

/-- Insert a list of declarations one by one. -/
def insertAll {K V : Type} [DecidableEq K] (err : K → SchemaError)
    (m : List (K × V)) : List (K × V) → Except SchemaError (List (K × V))
  | [] => .ok m
  | (k, v) :: rest => do insertAll err (← insertUnique err m k v) rest

/-- The three aggregate maps produced by merging. -/
structure MergedFragments where
  typeDefs : List (Name × Ty)
  entityTypeFragments : List (Name × EntityTypeFragment)
  actionFragments : List (EntityUID × ActionFragment)
deriving DecidableEq

/-- Merge a single namespace definition into the aggregate maps: common
types, then entity types, then actions. -/
def mergeNamespaceDef (acc : MergedFragments) (ns : ValidatorNamespaceDef) :
    Except SchemaError MergedFragments := do
  let t ← insertAll (fun n => .duplicateCommonType n) acc.typeDefs ns.typeDefs
  let e ← insertAll (fun n => .duplicateEntityType n) acc.entityTypeFragments ns.entityTypes
  let a ← insertAll (fun u => .duplicateAction u.str) acc.actionFragments ns.actions
  pure ⟨t, e, a⟩

def mergeFragmentsAux : List ValidatorNamespaceDef → MergedFragments →
    Except SchemaError MergedFragments
  | [], acc => .ok acc
  | ns :: rest, acc => do mergeFragmentsAux rest (← mergeNamespaceDef acc ns)

/-- The merge loop of `from_schema_fragments`: all namespace definitions of
all fragments, in order. -/
def mergeFragments (frags : List ValidatorSchemaFragment) :
    Except SchemaError MergedFragments :=
  mergeFragmentsAux frags.flatten ⟨[], [], []⟩

/-! ## Resolution of common-type references -/

mutual
/-- Modelled from the spec: `resolve_type_defs` substitutes common-type
references using the aggregate common-type map, failing if a referenced name
was never declared. -/
def resolveTypeDefs (tds : List (Name × Ty)) : UTy → Except SchemaError Ty
  | .bool => .ok .bool
  | .long => .ok .long
  | .string => .ok .string
  | .set e => do pure (.set (← resolveOTypeDefs tds e))
  | .record attrs isOpen => do pure (.record (← resolveAttrsTypeDefs tds attrs) isOpen)
  | .entity lub => .ok (.entity lub)
  | .ext n => .ok (.ext n)
  | .common n =>
    match assocFind tds n with
    | Option.some t => .ok t
    | Option.none => .error (.undeclaredCommonTypes {n})

/-- Modelled from the spec: resolution inside an optional set element. -/
def resolveOTypeDefs (tds : List (Name × Ty)) : UOTy → Except SchemaError OTy
  | .none => .ok .none
  | .some t => do pure (.some (← resolveTypeDefs tds t))

/-- Modelled from the spec: resolution inside an attribute map. -/
def resolveAttrsTypeDefs (tds : List (Name × Ty)) : UTyAttrs → Except SchemaError TyAttrs
  | .nil => .ok .nil
  | .cons n t r rest => do
    pure (.cons n (← resolveTypeDefs tds t) r (← resolveAttrsTypeDefs tds rest))
end

/-- `ValidatorSchema::record_attributes_or_none`. -/
def recordAttributesOrNone : Ty → Option TyAttrs
  | .record attrs _ => Option.some attrs
  | _ => Option.none

/-! ## Inverting the parents relation into a children relation -/

/-- Add `c` to the children entry of `p`
(`entry(parent).or_insert_with(HashSet::new).insert(child)`). -/
def addChild {K C : Type} [DecidableEq K] [DecidableEq C]
    (m : List (K × Finset C)) (p : K) (c : C) : List (K × Finset C) :=
  match m with
  | [] => [(p, {c})]
  | kv :: rest => if kv.1 = p then (kv.1, insert c kv.2) :: rest else kv :: addChild rest p c

/-- The loop inverting the `parents` relation of the declarations into a
children map. -/
def childrenMapOf {K V : Type} [DecidableEq K] (parentsOf : V → List K)
    (l : List (K × V)) : List (K × Finset K) :=
  l.foldl (fun m kv => (parentsOf kv.2).foldl (fun m p => addChild m p kv.1) m) []

/-- The keys left in a children map after removing all declared keys: these
are exactly the undeclared parent references. -/
def leftoverKeys {K V C : Type} [DecidableEq K]
    (children : List (K × Finset C)) (decls : List (K × V)) : Finset K :=
  ((children.map Prod.fst).filter (fun k => (assocFind decls k).isNone)).toFinset

/-! ## Building the validator entity types and action ids -/

/-- Shared shape of the two construction loops of `from_schema_fragments`:
resolve a declaration's shape/context type against the common-type map,
require it to be a record, and build the validator value. -/
def buildResolved {K A V : Type} [DecidableEq K] (tds : List (Name × Ty))
    (shapeOf : A → UTy) (err : K → SchemaError)
    (mk : K → A → TyAttrs → V) :
    List (K × A) → Except SchemaError (List (K × V))
  | [] => .ok []
  | (k, a) :: rest => do
    let resolved ← resolveTypeDefs tds (shapeOf a)
    match recordAttributesOrNone resolved with
    | Option.none => .error (err k)
    | Option.some attrs => do
      let rest' ← buildResolved tds shapeOf err mk rest
      .ok ((k, mk k a attrs) :: rest')

/-- The `entity_types` construction loop: descendants are the direct
children recorded for the declared name (removed from the children map), and
attributes are the resolved shape, which must be a record. -/
def buildEntityTypes (tds : List (Name × Ty)) (children : List (Name × Finset Name))
    (ets : List (Name × EntityTypeFragment)) :
    Except SchemaError (List (Name × ValidatorEntityType)) :=
  buildResolved tds (fun f => f.attributes)
    (fun n => .contextOrShapeNotRecord (.entityTypeShape n))
    (fun n _ attrs => ⟨n, assocFindD children n ∅, attrs⟩) ets

/-- The `action_ids` construction loop. -/
def buildActionIds (tds : List (Name × Ty)) (children : List (EntityUID × Finset EntityUID))
    (acs : List (EntityUID × ActionFragment)) :
    Except SchemaError (List (EntityUID × ValidatorActionId)) :=
  buildResolved tds (fun f => f.context)
    (fun u => .contextOrShapeNotRecord (.actionContext u))
    (fun u f ctx => ⟨u, f.appliesTo, assocFindD children u ∅, ctx, f.attributeTypes, f.attributes⟩) acs

/-! ## Transitive closure (`compute_tc`, modelled from the spec) -/

section TransitiveClosure

variable {α : Type} [DecidableEq α]

/-- Modelled from the spec: one closure step, adding the direct children
(`succ`) of every member. -/
def stepSet (succ : α → Finset α) (S : Finset α) : Finset α :=
  S ∪ S.biUnion succ

/-- Modelled from the spec: iterated closure steps. -/
def iterStep (succ : α → Finset α) : Nat → Finset α → Finset α
  | 0, S => S
  | n + 1, S => stepSet succ (iterStep succ n S)

end TransitiveClosure

/-- The direct children of `v` recorded in a map whose values carry
direct-children sets. -/
def childrenOfMap {K V : Type} [DecidableEq K] (get : V → Finset K)
    (m : List (K × V)) (v : K) : Finset K :=
  m.foldl (fun s kv => if kv.1 = v then s ∪ get kv.2 else s) ∅

/-- All nodes appearing in some direct-children set of the map. -/
def targetsOfMap {K V : Type} [DecidableEq K] (get : V → Finset K)
    (m : List (K × V)) : Finset K :=
  m.foldl (fun s kv => s ∪ get kv.2) ∅

/-- Modelled from the spec: the full descendant set of `v` — every node
reachable from `v` by one or more child edges. Iterating the closure step
once per possible descendant saturates; see `mem_descOfMap_iff`. -/
def descOfMap {K V : Type} [DecidableEq K] (get : V → Finset K)
    (m : List (K × V)) (v : K) : Finset K :=
  iterStep (childrenOfMap get m) (targetsOfMap get m).card (childrenOfMap get m v)

/-- Modelled from the spec: `compute_tc`, replacing each node's direct
children by its full descendant set. -/
def tcDescMap {K V : Type} [DecidableEq K] (get : V → Finset K)
    (set : V → Finset K → V) (m : List (K × V)) : List (K × V) :=
  m.map (fun kv => (kv.1, set kv.2 (descOfMap get m kv.1)))

/-- `compute_tc(&mut entity_types, false)`: close the entity-type
hierarchy; no cycle check is performed. -/
def tcEntityTypes (l : List (Name × ValidatorEntityType)) :
    List (Name × ValidatorEntityType) :=
  tcDescMap (fun v => v.descendants) (fun v d => { v with descendants := d }) l

/-- `compute_tc(&mut action_ids, true)`: close the action hierarchy and
fail with the hierarchy-cycle error if any action is its own descendant. -/
def tcActionIds (l : List (EntityUID × ValidatorActionId)) :
    Except SchemaError (List (EntityUID × ValidatorActionId)) :=
  let closed := tcDescMap (fun v => v.descendants) (fun v d => { v with descendants := d }) l
  if closed.any (fun kv => decide (kv.1 ∈ kv.2.descendants)) then
    .error .cycleInActionHierarchy
  else
    .ok closed

/-! ## Undeclared-reference checking (`check_for_undeclared`) -/

mutual
/-- `ValidatorSchema::check_undeclared_in_type`: add to `undeclared` every
entity type appearing inside the type that is not a declared entity type,
recursing through records and sets. -/
def checkUndeclaredInType (ets : List (Name × ValidatorEntityType)) :
    Ty → Finset String → Finset String
  | .entity lub, s =>
    lub.foldl (fun s n => if (assocFind ets n).isSome then s else insert n s) s
  | .record attrs _, s => checkUndeclaredInAttrs ets attrs s
  | .set e, s => checkUndeclaredInOTy ets e s
  | .bool, s => s
  | .long, s => s
  | .string, s => s
  | .ext _, s => s

/-- Recursion of `check_undeclared_in_type` into a set element type. -/
def checkUndeclaredInOTy (ets : List (Name × ValidatorEntityType)) :
    OTy → Finset String → Finset String
  | .none, s => s
  | .some t, s => checkUndeclaredInType ets t s

/-- Recursion of `check_undeclared_in_type` through record attributes. -/
def checkUndeclaredInAttrs (ets : List (Name × ValidatorEntityType)) :
    TyAttrs → Finset String → Finset String
  | .nil, s => s
  | .cons _ t _ rest, s => checkUndeclaredInAttrs ets rest (checkUndeclaredInType ets t s)
end

/-- The `applies_to` loops of `check_for_undeclared`: collect concrete
applicable entity types that are not declared; `Unspecified` is exempt. -/
def undeclaredInApplySpec (ets : List (Name × ValidatorEntityType))
    (spec : List EntityType) (s : Finset String) : Finset String :=
  spec.foldl (fun s et =>
    match et with
    | .concrete n => if (assocFind ets n).isSome then s else insert n s
    | .unspecified => s) s

/-- The set of undeclared entity-type names accumulated by
`check_for_undeclared`: dangling `memberOf` parents, entity references in
entity-type attribute types, in action context types, and in `appliesTo`
principal and resource lists. -/
def undeclaredEntitySet (ets : List (Name × ValidatorEntityType))
    (undeclaredParentEntities : Finset Name)
    (acs : List (EntityUID × ValidatorActionId)) : Finset String :=
  let s := ets.foldl (fun s kv => checkUndeclaredInAttrs ets kv.2.attributes s)
    undeclaredParentEntities
  acs.foldl (fun s kv =>
    let s := checkUndeclaredInAttrs ets kv.2.context s
    let s := undeclaredInApplySpec ets kv.2.appliesTo.principalApplySpec s
    undeclaredInApplySpec ets kv.2.appliesTo.resourceApplySpec s) s

/-- The set of undeclared action ids (as strings): dangling action
`memberOf` parents. -/
def undeclaredActionSet (undeclaredParentActions : Finset EntityUID) : Finset String :=
  undeclaredParentActions.image EntityUID.str

/-- `ValidatorSchema::check_for_undeclared`: accumulate the undeclared
entity types and actions; report undeclared entity types first, then
undeclared actions. -/
def checkForUndeclared (ets : List (Name × ValidatorEntityType))
    (undeclaredParentEntities : Finset Name)
    (acs : List (EntityUID × ValidatorActionId))
    (undeclaredParentActions : Finset EntityUID) : Except SchemaError Unit :=
  let undeclaredE := undeclaredEntitySet ets undeclaredParentEntities acs
  let undeclaredA := undeclaredActionSet undeclaredParentActions
  if undeclaredE ≠ ∅ then .error (.undeclaredEntityTypes undeclaredE)
  else if undeclaredA ≠ ∅ then .error (.undeclaredActions undeclaredA)
  else .ok ()

/-! ## `ValidatorSchema::from_schema_fragments` -/

/-- Construct a new `ValidatorSchema` from some number of schema fragments:
merge, invert parents into children, build the validator values, compute
transitive closure (with a cycle check for actions only), and check for
undeclared references. -/
def fromSchemaFragments (frags : List ValidatorSchemaFragment) :
    Except SchemaError ValidatorSchema := do
  let merged ← mergeFragments frags
  let entityChildren := childrenMapOf (fun f => f.parents) merged.entityTypeFragments
  let ets ← buildEntityTypes merged.typeDefs entityChildren merged.entityTypeFragments
  let actionChildren := childrenMapOf (fun f => f.parents) merged.actionFragments
  let acs ← buildActionIds merged.typeDefs actionChildren merged.actionFragments
  let ets := tcEntityTypes ets
  let acs ← tcActionIds acs
  let _ ← checkForUndeclared ets (leftoverKeys entityChildren merged.entityTypeFragments)
    acs (leftoverKeys actionChildren merged.actionFragments)
  pure ⟨ets, acs⟩

/-- `ValidatorSchema::empty`. -/
def ValidatorSchema.empty : ValidatorSchema := ⟨[], []⟩

/-! ## Action-entity materialization -/

/-- An `Entity` of the core AST: uid, literal attributes, ancestors. -/
structure Entity where
  uid : EntityUID
  attrs : List (String × RestrictedExpr)
  ancestors : Finset EntityUID
deriving DecidableEq

/-- The ancestors of action `a`: every action that includes `a` among its
own descendants (the inversion loop of `action_entities_iter`). -/
def actionAncestors (acs : List (EntityUID × ValidatorActionId)) (a : EntityUID) :
    Finset EntityUID :=
  acs.foldl (fun s kv => if a ∈ kv.2.descendants then insert kv.1 s else s) ∅

/-- `ValidatorSchema::action_entities_iter`: one `Entity` per action, with
the action's literal attributes and the inverted descendant relation as its
ancestor set. -/
def actionEntitiesIter (s : ValidatorSchema) : List Entity :=
  s.actionIds.map (fun kv => ⟨kv.1, kv.2.attributes, actionAncestors s.actionIds kv.1⟩)

/-! ## Entity-type descriptions -/

/-- `EntityTypeDescription`: an entity type's identity, its validator data,
and its allowed parent types. -/
structure EntityTypeDescription where
  coreType : EntityType
  validatorType : ValidatorEntityType
  allowedParentTypes : Finset EntityType
deriving DecidableEq

/-- `EntityTypeDescription::new`: `None` if the type is not in the schema;
the allowed parent types are found by scanning every entity type's
descendants set for membership of the target type. -/
def EntityTypeDescription.new (schema : ValidatorSchema) (typeName : Name) :
    Option EntityTypeDescription :=
  (assocFind schema.entityTypes typeName).map (fun vt =>
    { coreType := .concrete typeName
      validatorType := vt
      allowedParentTypes :=
        schema.entityTypes.foldl (fun s kv =>
          if typeName ∈ kv.2.descendants then insert (EntityType.concrete kv.1) s else s) ∅ })

/-- `EntityTypeDescription::allowed_parent_types`. -/
def EntityTypeDescription.allowedParents (d : EntityTypeDescription) : Finset EntityType :=
  d.allowedParentTypes

/-! ## JSON deserialization errors (`cedar-policy-core/src/entities/json/err.rs`) -/

/-- Stand-ins for external collaborator types appearing only as error
payloads (their structure is out of scope; only their presence matters). -/
structure SerdeJsonError where
  msg : String
deriving DecidableEq

structure ParseErrors where
  msgs : List String
deriving DecidableEq

structure RestrictedExprError where
  msg : String
deriving DecidableEq

structure ValueOrExpr where
  descr : String
deriving DecidableEq

structure CoreSchemaType where
  descr : String
deriving DecidableEq

structure EntitySchemaConformanceError where
  msg : String
deriving DecidableEq

structure HeterogeneousSetError where
  msg : String
deriving DecidableEq

structure ExtensionFunctionLookupError where
  msg : String
deriving DecidableEq

abbrev PolicyID := String

/-- `EscapeKind`: the `__entity` or `__extn` escape. -/
inductive EscapeKind where
  | entity
  | extension
deriving DecidableEq

/-- `JsonDeserializationErrorContext`: where we were in the JSON document. -/
inductive JsonDeserializationErrorContext where
  | entityAttribute (uid : EntityUID) (attr : String)
  | entityParents (uid : EntityUID)
  | entityUid
  | context
  | policy (id : PolicyID)
deriving DecidableEq

/-- `JsonDeserializationError`: the errors thrown during deserialization
from JSON, with the same variants and context payloads as the source. -/
inductive JsonDeserializationError where
  | serde (err : SerdeJsonError)
  | parseEscape (kind : EscapeKind) (value : String) (errs : ParseErrors)
  | restrictedExpressionError (err : RestrictedExprError)
  | expectedLiteralEntityRef (ctx : JsonDeserializationErrorContext) (got : ValueOrExpr)
  | expectedExtnValue (ctx : JsonDeserializationErrorContext) (got : ValueOrExpr)
  | expectedContextToBeRecord (got : RestrictedExpr)
  | actionParentIsNotAction (uid : EntityUID) (parent : EntityUID)
  | missingImpliedConstructor (ctx : JsonDeserializationErrorContext)
      (returnType : CoreSchemaType) (argType : CoreSchemaType)
  | duplicateKeyInRecordLiteral (ctx : JsonDeserializationErrorContext) (key : String)
  | entitySchemaConformance (err : EntitySchemaConformanceError)
  | unexpectedRecordAttr (ctx : JsonDeserializationErrorContext) (recordAttr : String)
  | missingRequiredRecordAttr (ctx : JsonDeserializationErrorContext) (recordAttr : String)
  | typeMismatch (ctx : JsonDeserializationErrorContext)
      (expected : CoreSchemaType) (actual : CoreSchemaType)
  | heterogeneousSet (ctx : JsonDeserializationErrorContext) (err : HeterogeneousSetError)
  | extensionFunctionLookup (ctx : JsonDeserializationErrorContext)
      (err : ExtensionFunctionLookupError)
  | exprTag (ctx : JsonDeserializationErrorContext)
deriving DecidableEq

/-- The context breadcrumb carried by an error, if any: exactly the `ctx`
field present on the corresponding source variant. -/
def ctxOf : JsonDeserializationError → Option JsonDeserializationErrorContext
  | .expectedLiteralEntityRef ctx _ => Option.some ctx
  | .expectedExtnValue ctx _ => Option.some ctx
  | .missingImpliedConstructor ctx _ _ => Option.some ctx
  | .duplicateKeyInRecordLiteral ctx _ => Option.some ctx
  | .unexpectedRecordAttr ctx _ => Option.some ctx
  | .missingRequiredRecordAttr ctx _ => Option.some ctx
  | .typeMismatch ctx _ _ => Option.some ctx
  | .heterogeneousSet ctx _ => Option.some ctx
  | .extensionFunctionLookup ctx _ => Option.some ctx
  | .exprTag ctx => Option.some ctx
  | _ => Option.none

/-- The conformance kind of error, as enumerated by the specification:
unexpected record attribute, missing required record attribute, duplicate
key in a record literal, type mismatch, heterogeneous set, non-entity action
parent, unsupported legacy `__expr` escape, missing implied constructor. -/
def isConformanceKind : JsonDeserializationError → Bool
  | .unexpectedRecordAttr _ _ => true
  | .missingRequiredRecordAttr _ _ => true
  | .duplicateKeyInRecordLiteral _ _ => true
  | .typeMismatch _ _ _ => true
  | .heterogeneousSet _ _ => true
  | .actionParentIsNotAction _ _ => true
  | .exprTag _ => true
  | .missingImpliedConstructor _ _ _ => true
  | _ => false

/-! ## Observation helpers -/

/-- The error of a construction result, if it failed. -/
def errOf {A : Type} : Except SchemaError A → Option SchemaError
  | .error e => Option.some e
  | .ok _ => Option.none

/-- The set reported by an `UndeclaredEntityTypes` failure (else empty). -/
def undeclaredSetOf : Except SchemaError ValidatorSchema → Finset String
  | .error (.undeclaredEntityTypes S) => S
  | _ => ∅

/-- Whether a construction failed with `UndeclaredEntityTypes`. -/
def isUndeclaredETypes : Except SchemaError ValidatorSchema → Bool
  | .error (.undeclaredEntityTypes _) => true
  | _ => false

mutual
/-- All entity-type names appearing in `Entity` lub sets anywhere inside a
type (the entity references scanned by `check_undeclared_in_type`). -/
def lubNames : Ty → List Name
  | .entity lub => lub
  | .record attrs _ => lubNamesAttrs attrs
  | .set e => lubNamesO e
  | .bool => []
  | .long => []
  | .string => []
  | .ext _ => []

/-- Entity references inside an optional set element type. -/
def lubNamesO : OTy → List Name
  | .none => []
  | .some t => lubNames t

/-- Entity references inside an attribute map. -/
def lubNamesAttrs : TyAttrs → List Name
  | .nil => []
  | .cons _ t _ rest => lubNames t ++ lubNamesAttrs rest
end

/-- The schema of a successful construction result (defaulting to the empty
schema; used to name concrete construction results). -/
def okOr : Except SchemaError ValidatorSchema → ValidatorSchema
  | .ok s => s
  | .error _ => ValidatorSchema.empty

/-! ### Concrete example inputs -/

/-- An entity-type declaration with the given parents and an empty closed
record shape. -/
def exEntityFrag (ps : List Name) : EntityTypeFragment :=
  ⟨ps, .record .nil false⟩

/-- An action uid in the default `Action` entity type. -/
def exActionUID (s : String) : EntityUID :=
  ⟨.concrete "Action", s⟩

/-- An action declaration with the given parents, an empty applies-to spec
and an empty closed record context. -/
def exActionFrag (ps : List EntityUID) : ActionFragment :=
  ⟨⟨[], []⟩, ps, .record .nil false, [], []⟩

/-- A fragment set declaring the entity chain `A —memberOf→ B —memberOf→ C`
and the action chain `a —memberOf→ b —memberOf→ c`. -/
def exChainFrags : List ValidatorSchemaFragment :=
  [[⟨[], [("A", exEntityFrag ["B"]), ("B", exEntityFrag ["C"]), ("C", exEntityFrag [])],
    [(exActionUID "a", exActionFrag [exActionUID "b"]),
     (exActionUID "b", exActionFrag [exActionUID "c"]),
     (exActionUID "c", exActionFrag [])]⟩]]

/-- The merged maps of `exChainFrags` (insertion prepends). -/
def exChainMerged : MergedFragments :=
  ⟨[],
   [("C", exEntityFrag []), ("B", exEntityFrag ["C"]), ("A", exEntityFrag ["B"])],
   [(exActionUID "c", exActionFrag []),
    (exActionUID "b", exActionFrag [exActionUID "c"]),
    (exActionUID "a", exActionFrag [exActionUID "b"])]⟩

/-- A fragment set with three distinct undeclared entity-type names: `P` in
a `memberOf`, `Q` in an attribute type, `R` in an `appliesTo` principal
list. -/
def exThreeUndeclaredFrags : List ValidatorSchemaFragment :=
  [[⟨[], [("A", exEntityFrag ["P"]),
          ("B", ⟨[], .record (.cons "x" (.entity ["Q"]) true .nil) false⟩)],
     [(exActionUID "a", ⟨⟨[.concrete "R"], [.concrete "A"]⟩, [],
        .record .nil false, [], []⟩)]⟩]]

/-- A fragment set with a self-loop action cycle and a duplicate entity-type
declaration: merging fails before the cycle check runs. -/
def exDupCycleFrags : List ValidatorSchemaFragment :=
  [[⟨[], [("E", exEntityFrag [])], [(exActionUID "a", exActionFrag [exActionUID "a"])]⟩,
    ⟨[], [("E", exEntityFrag [])], []⟩]]

/-- A fragment set whose only declaration is a self-referential action. -/
def exSelfLoopFrags : List ValidatorSchemaFragment :=
  [[⟨[], [], [(exActionUID "a", exActionFrag [exActionUID "a"])]⟩]]

/-- The merged maps of `exSelfLoopFrags`. -/
def exSelfLoopMerged : MergedFragments :=
  ⟨[], [], [(exActionUID "a", exActionFrag [exActionUID "a"])]⟩

/-- A fragment set with an entity-type membership cycle `A ↔ B` and nothing
else. -/
def exEntityCycleFrags : List ValidatorSchemaFragment :=
  [[⟨[], [("A", exEntityFrag ["B"]), ("B", exEntityFrag ["A"])], []⟩]]

/-- Two fragments declaring an action with the same local name `Baz` in the
namespaces `Foo::Bar` and `Bar::Foo`. -/
def exCrossNamespaceFrags : List ValidatorSchemaFragment :=
  [[⟨[], [], [(⟨.concrete "Foo::Bar::Action", "Baz"⟩, exActionFrag [])]⟩],
   [⟨[], [], [(⟨.concrete "Bar::Foo::Action", "Baz"⟩, exActionFrag [])]⟩]]

/-- The entity-type entry of a schema for a name (defaulting to a trivial
entry; used to name concrete lookup results). -/
def entityTypeOf (s : ValidatorSchema) (n : Name) : ValidatorEntityType :=
  (assocFind s.entityTypes n).getD ⟨n, ∅, .nil⟩

/-- The action entry of a schema for a uid (defaulting to a trivial entry;
used to name concrete lookup results). -/
def actionIdOf (s : ValidatorSchema) (u : EntityUID) : ValidatorActionId :=
  (assocFind s.actionIds u).getD ⟨u, ⟨[], []⟩, ∅, .nil, [], []⟩

/-- A two-entity schema: `A` has descendant `B`, `B` has none. -/
def exDescSchema : ValidatorSchema :=
  ⟨[("A", ⟨"A", {"B"}, .nil⟩), ("B", ⟨"B", ∅, .nil⟩)], []⟩

/-- The description of `B` in `exDescSchema`. -/
def exDesc : EntityTypeDescription :=
  ⟨.concrete "B", ⟨"B", ∅, .nil⟩, insert (EntityType.concrete "A") ∅⟩

/-- A two-action schema in which `a` is a descendant of `b`. -/
def exActSchema : ValidatorSchema :=
  ⟨[], [(exActionUID "a", ⟨exActionUID "a", ⟨[], []⟩, ∅, .nil, [], []⟩),
        (exActionUID "b", ⟨exActionUID "b", ⟨[], []⟩, {exActionUID "a"}, .nil, [], []⟩)]⟩

/-- All common-type names declared across a list of namespace definitions,
with multiplicity. -/
def typeDefNames (defs : List ValidatorNamespaceDef) : List Name :=
  (defs.map (fun ns => ns.typeDefs.map Prod.fst)).flatten

/-- All entity-type names declared across a list of namespace definitions,
with multiplicity. -/
def entityDeclNames (defs : List ValidatorNamespaceDef) : List Name :=
  (defs.map (fun ns => ns.entityTypes.map Prod.fst)).flatten

/-- All action uids declared across a list of namespace definitions, with
multiplicity. -/
def actionDeclUids (defs : List ValidatorNamespaceDef) : List EntityUID :=
  (defs.map (fun ns => ns.actions.map Prod.fst)).flatten

/-! ## Lemmas: association-list maps -/

section AssocLemmas

variable {K V W : Type} [DecidableEq K]

theorem assocFind_of_mem_nodup {m : List (K × V)} {k : K} {v : V}
    (hnd : (m.map Prod.fst).Nodup) (hmem : (k, v) ∈ m) :
    assocFind m k = Option.some v := by
  induction m with
  | nil => cases hmem
  | cons kv rest ih =>
    simp only [List.map_cons, List.nodup_cons] at hnd
    rcases List.mem_cons.1 hmem with h | h
    · subst h
      rw [assocFind, if_pos rfl]
    · have hk : kv.1 ≠ k := by
        intro he
        apply hnd.1
        rw [he]
        exact List.mem_map.2 ⟨(k, v), h, rfl⟩
      rw [assocFind, if_neg hk]
      exact ih hnd.2 h

theorem assocFind_mem {m : List (K × V)} {k : K} {v : V}
    (h : assocFind m k = Option.some v) : (k, v) ∈ m := by
  induction m with
  | nil => simp [assocFind] at h
  | cons kv rest ih =>
    by_cases hk : kv.1 = k
    · rw [assocFind, if_pos hk] at h
      have hv := Option.some.inj h
      have hkv : (k, v) = kv := by
        cases kv
        simp_all
      rw [hkv]
      exact List.mem_cons_self _ _
    · rw [assocFind, if_neg hk] at h
      exact List.mem_cons_of_mem _ (ih h)

theorem assocFind_isSome_iff {m : List (K × V)} {k : K} :
    (assocFind m k).isSome = true ↔ k ∈ m.map Prod.fst := by
  induction m with
  | nil => simp [assocFind]
  | cons kv rest ih =>
    by_cases hk : kv.1 = k
    · simp [assocFind, hk]
    · simp [assocFind, hk, ih, Ne.symm hk]

theorem assocFind_eq_none_iff {m : List (K × V)} {k : K} :
    assocFind m k = Option.none ↔ k ∉ m.map Prod.fst := by
  rw [← assocFind_isSome_iff, Option.isSome_iff_exists]
  cases assocFind m k <;> simp

theorem assocFind_map_val {m : List (K × V)} {k : K} (f : K → V → W) :
    assocFind (m.map (fun kv => (kv.1, f kv.1 kv.2))) k = (assocFind m k).map (f k) := by
  induction m with
  | nil => simp [assocFind]
  | cons kv rest ih =>
    by_cases hk : kv.1 = k
    · subst hk
      simp [assocFind]
    · simp [assocFind, hk, ih]

end AssocLemmas

/-! ## Lemmas: folds that only grow a finite set -/

section FoldLemmas

variable {α β : Type} [DecidableEq α]

theorem subset_foldl_of_infl {f : Finset α → β → Finset α}
    (hf : ∀ s x, s ⊆ f s x) (l : List β) (s₀ : Finset α) :
    s₀ ⊆ l.foldl f s₀ := by
  induction l generalizing s₀ with
  | nil => simp
  | cons x rest ih => exact (hf s₀ x).trans (ih (f s₀ x))

theorem mem_foldl_of_mem_elem {f : Finset α → β → Finset α}
    (hf : ∀ s x, s ⊆ f s x) {l : List β} {x : β} (hx : x ∈ l) {t : α}
    (ht : ∀ s, t ∈ f s x) (s₀ : Finset α) : t ∈ l.foldl f s₀ := by
  induction l generalizing s₀ with
  | nil => cases hx
  | cons y rest ih =>
    rcases List.mem_cons.1 hx with h | h
    · subst h
      exact subset_foldl_of_infl hf rest (f s₀ x) (ht s₀)
    · exact ih h (f s₀ y)

theorem mem_foldl_cond_insert {P : β → Prop} [DecidablePred P] {g : β → α}
    (l : List β) (s₀ : Finset α) (x : α) :
    x ∈ l.foldl (fun s e => if P e then insert (g e) s else s) s₀ ↔
      x ∈ s₀ ∨ ∃ e ∈ l, P e ∧ g e = x := by
  induction l generalizing s₀ with
  | nil => simp
  | cons y rest ih =>
    by_cases hy : P y
    · simp only [List.foldl_cons, if_pos hy, ih, Finset.mem_insert]
      constructor
      · rintro ((h | h) | h)
        · exact Or.inr ⟨y, List.mem_cons_self _ _, hy, h.symm⟩
        · exact Or.inl h
        · rcases h with ⟨e, he, hP, hg⟩
          exact Or.inr ⟨e, List.mem_cons_of_mem _ he, hP, hg⟩
      · rintro (h | ⟨e, he, hP, hg⟩)
        · exact Or.inl (Or.inr h)
        · rcases List.mem_cons.1 he with h | h
          · subst h
            exact Or.inl (Or.inl hg.symm)
          · exact Or.inr ⟨e, h, hP, hg⟩
    · simp only [List.foldl_cons, if_neg hy, ih]
      constructor
      · rintro (h | ⟨e, he, hP, hg⟩)
        · exact Or.inl h
        · exact Or.inr ⟨e, List.mem_cons_of_mem _ he, hP, hg⟩
      · rintro (h | ⟨e, he, hP, hg⟩)
        · exact Or.inl h
        · rcases List.mem_cons.1 he with h | h
          · subst h
            exact absurd hP hy
          · exact Or.inr ⟨e, h, hP, hg⟩

theorem mem_foldl_cond_union {P : β → Prop} [DecidablePred P] {g : β → Finset α}
    (l : List β) (s₀ : Finset α) (x : α) :
    x ∈ l.foldl (fun s e => if P e then s ∪ g e else s) s₀ ↔
      x ∈ s₀ ∨ ∃ e ∈ l, P e ∧ x ∈ g e := by
  induction l generalizing s₀ with
  | nil => simp
  | cons y rest ih =>
    by_cases hy : P y
    · simp only [List.foldl_cons, if_pos hy, ih, Finset.mem_union]
      constructor
      · rintro ((h | h) | h)
        · exact Or.inl h
        · exact Or.inr ⟨y, List.mem_cons_self _ _, hy, h⟩
        · rcases h with ⟨e, he, hP, hg⟩
          exact Or.inr ⟨e, List.mem_cons_of_mem _ he, hP, hg⟩
      · rintro (h | ⟨e, he, hP, hg⟩)
        · exact Or.inl (Or.inl h)
        · rcases List.mem_cons.1 he with h | h
          · subst h
            exact Or.inl (Or.inr hg)
          · exact Or.inr ⟨e, h, hP, hg⟩
    · simp only [List.foldl_cons, if_neg hy, ih]
      constructor
      · rintro (h | ⟨e, he, hP, hg⟩)
        · exact Or.inl h
        · exact Or.inr ⟨e, List.mem_cons_of_mem _ he, hP, hg⟩
      · rintro (h | ⟨e, he, hP, hg⟩)
        · exact Or.inl h
        · rcases List.mem_cons.1 he with h | h
          · subst h
            exact absurd hP hy
          · exact Or.inr ⟨e, h, hP, hg⟩

end FoldLemmas

/-! ## Lemmas: the children map -/

section ChildrenLemmas

variable {K C V : Type} [DecidableEq K] [DecidableEq C]

theorem assocFindD_addChild_self (m : List (K × Finset C)) (p : K) (c : C) :
    assocFindD (addChild m p c) p ∅ = insert c (assocFindD m p ∅) := by
  induction m with
  | nil => simp [addChild, assocFindD, assocFind]
  | cons kv rest ih =>
    by_cases hk : kv.1 = p
    · simp [addChild, hk, assocFindD, assocFind]
    · rw [addChild, if_neg hk]
      simp only [assocFindD, assocFind, if_neg hk]
      exact ih

theorem assocFindD_addChild_other (m : List (K × Finset C)) {p q : K} (c : C)
    (hq : q ≠ p) : assocFindD (addChild m p c) q ∅ = assocFindD m q ∅ := by
  induction m with
  | nil => simp [addChild, assocFindD, assocFind, Ne.symm hq]
  | cons kv rest ih =>
    by_cases hk : kv.1 = p
    · rw [addChild, if_pos hk]
      have hnq : ¬kv.1 = q := by
        rw [hk]
        exact Ne.symm hq
      simp [assocFindD, assocFind, hnq]
    · rw [addChild, if_neg hk]
      by_cases hkq : kv.1 = q
      · simp [assocFindD, assocFind, hkq]
      · simp only [assocFindD, assocFind, if_neg hkq]
        exact ih

theorem mem_parentsFold {ps : List K} {m₀ : List (K × Finset K)} {c : K}
    {q x : K} :
    x ∈ assocFindD (ps.foldl (fun m p => addChild m p c) m₀) q ∅ ↔
      x ∈ assocFindD m₀ q ∅ ∨ (x = c ∧ q ∈ ps) := by
  induction ps generalizing m₀ with
  | nil => simp
  | cons p rest ih =>
    rw [List.foldl_cons, ih]
    by_cases hq : q = p
    · subst hq
      rw [assocFindD_addChild_self]
      simp only [Finset.mem_insert, List.mem_cons]
      tauto
    · rw [assocFindD_addChild_other _ _ hq]
      simp only [List.mem_cons]
      constructor
      · rintro (h | ⟨hx, hr⟩)
        · exact Or.inl h
        · exact Or.inr ⟨hx, Or.inr hr⟩
      · rintro (h | ⟨hx, (hp | hr)⟩)
        · exact Or.inl h
        · exact absurd hp hq
        · exact Or.inr ⟨hx, hr⟩

theorem mem_childrenMapOf {parentsOf : V → List K} {l : List (K × V)}
    {q x : K} :
    x ∈ assocFindD (childrenMapOf parentsOf l) q ∅ ↔
      ∃ kv ∈ l, kv.1 = x ∧ q ∈ parentsOf kv.2 := by
  have main : ∀ (l : List (K × V)) (m₀ : List (K × Finset K)),
      x ∈ assocFindD
        (l.foldl (fun m kv => (parentsOf kv.2).foldl (fun m p => addChild m p kv.1) m) m₀) q ∅ ↔
        x ∈ assocFindD m₀ q ∅ ∨ ∃ kv ∈ l, kv.1 = x ∧ q ∈ parentsOf kv.2 := by
    intro l
    induction l with
    | nil => simp
    | cons kv rest ih =>
      intro m₀
      rw [List.foldl_cons, ih, mem_parentsFold]
      constructor
      · rintro ((h | ⟨hx, hq⟩) | ⟨kv', h', hx, hq⟩)
        · exact Or.inl h
        · exact Or.inr ⟨kv, List.mem_cons_self _ _, hx.symm, hq⟩
        · exact Or.inr ⟨kv', List.mem_cons_of_mem _ h', hx, hq⟩
      · rintro (h | ⟨kv', h', hx, hq⟩)
        · exact Or.inl (Or.inl h)
        · rcases List.mem_cons.1 h' with h'' | h''
          · subst h''
            exact Or.inl (Or.inr ⟨hx.symm, hq⟩)
          · exact Or.inr ⟨kv', h'', hx, hq⟩
  rw [childrenMapOf, main]
  simp [assocFindD, assocFind]

theorem keys_addChild {m : List (K × Finset C)} {p q : K} {c : C} :
    q ∈ (addChild m p c).map Prod.fst ↔ q ∈ m.map Prod.fst ∨ q = p := by
  induction m with
  | nil => simp [addChild]
  | cons kv rest ih =>
    by_cases hk : kv.1 = p
    · rw [addChild, if_pos hk]
      simp only [List.map_cons, List.mem_cons, hk]
      tauto
    · rw [addChild, if_neg hk]
      simp only [List.map_cons, List.mem_cons, ih]
      tauto

theorem keys_parentsFold {ps : List K} {m₀ : List (K × Finset K)} {c : K} {q : K} :
    q ∈ (ps.foldl (fun m p => addChild m p c) m₀).map Prod.fst ↔
      q ∈ m₀.map Prod.fst ∨ q ∈ ps := by
  induction ps generalizing m₀ with
  | nil => simp
  | cons p rest ih =>
    rw [List.foldl_cons, ih, keys_addChild]
    simp only [List.mem_cons]
    tauto

theorem keys_childrenMapOf {parentsOf : V → List K} {l : List (K × V)} {q : K} :
    q ∈ (childrenMapOf parentsOf l).map Prod.fst ↔
      ∃ kv ∈ l, q ∈ parentsOf kv.2 := by
  have main : ∀ (l : List (K × V)) (m₀ : List (K × Finset K)),
      q ∈ (l.foldl (fun m kv =>
        (parentsOf kv.2).foldl (fun m p => addChild m p kv.1) m) m₀).map Prod.fst ↔
        q ∈ m₀.map Prod.fst ∨ ∃ kv ∈ l, q ∈ parentsOf kv.2 := by
    intro l
    induction l with
    | nil => simp
    | cons kv rest ih =>
      intro m₀
      rw [List.foldl_cons, ih, keys_parentsFold]
      constructor
      · rintro ((h | h) | ⟨kv', h', hq⟩)
        · exact Or.inl h
        · exact Or.inr ⟨kv, List.mem_cons_self _ _, h⟩
        · exact Or.inr ⟨kv', List.mem_cons_of_mem _ h', hq⟩
      · rintro (h | ⟨kv', h', hq⟩)
        · exact Or.inl (Or.inl h)
        · rcases List.mem_cons.1 h' with h'' | h''
          · subst h''
            exact Or.inl (Or.inr hq)
          · exact Or.inr ⟨kv', h'', hq⟩
  rw [childrenMapOf, main]
  simp

theorem mem_leftoverKeys {children : List (K × Finset C)} {decls : List (K × V)}
    {p : K} :
    p ∈ leftoverKeys children decls ↔
      p ∈ children.map Prod.fst ∧ assocFind decls p = Option.none := by
  rw [leftoverKeys, List.mem_toFinset, List.mem_filter]
  constructor
  · rintro ⟨h1, h2⟩
    refine ⟨h1, ?_⟩
    rw [Option.isNone_iff_eq_none] at h2
    exact h2
  · rintro ⟨h1, h2⟩
    refine ⟨h1, ?_⟩
    rw [Option.isNone_iff_eq_none]
    exact h2

end ChildrenLemmas

/-! ## Lemmas: the transitive-closure engine -/

section TCLemmas

variable {α : Type} [DecidableEq α] {succ : α → Finset α}

theorem subset_stepSet {S : Finset α} : S ⊆ stepSet succ S :=
  Finset.subset_union_left

theorem iterStep_succ_eq (n : Nat) (S : Finset α) :
    iterStep succ (n + 1) S = stepSet succ (iterStep succ n S) := rfl

theorem subset_iterStep (n : Nat) (S : Finset α) : S ⊆ iterStep succ n S := by
  induction n with
  | zero => exact Finset.Subset.refl S
  | succ n ih => exact ih.trans subset_stepSet

theorem iterStep_subset_univ {U : Finset α} (hsucc : ∀ x, succ x ⊆ U)
    {S : Finset α} (hS : S ⊆ U) (n : Nat) : iterStep succ n S ⊆ U := by
  induction n with
  | zero => exact hS
  | succ n ih =>
    rw [iterStep_succ_eq, stepSet]
    exact Finset.union_subset ih (Finset.biUnion_subset.2 (fun x _ => hsucc x))

theorem iterStep_fix {k : Nat} {S : Finset α}
    (h : stepSet succ (iterStep succ k S) = iterStep succ k S) (m : Nat) :
    iterStep succ (k + m) S = iterStep succ k S := by
  induction m with
  | zero => rfl
  | succ m ih =>
    have : k + (m + 1) = (k + m) + 1 := by omega
    rw [this, iterStep_succ_eq, ih, h]

theorem card_le_iterStep {S : Finset α} {n : Nat}
    (h : ∀ k < n, stepSet succ (iterStep succ k S) ≠ iterStep succ k S) :
    n ≤ (iterStep succ n S).card := by
  induction n with
  | zero => exact Nat.zero_le _
  | succ n ih =>
    have h1 : n ≤ (iterStep succ n S).card :=
      ih (fun k hk => h k (Nat.lt_succ_of_lt hk))
    have hss : iterStep succ n S ⊂ iterStep succ (n + 1) S := by
      rw [iterStep_succ_eq]
      exact Finset.ssubset_iff_subset_ne.2
        ⟨subset_stepSet, fun he => h n (Nat.lt_succ_self n) he.symm⟩
    exact Nat.succ_le_of_lt (Nat.lt_of_le_of_lt h1 (Finset.card_lt_card hss))

theorem stepSet_iterStep_card_fix {U : Finset α} (hsucc : ∀ x, succ x ⊆ U)
    {S : Finset α} (hS : S ⊆ U) :
    stepSet succ (iterStep succ U.card S) = iterStep succ U.card S := by
  by_contra hne
  have hall : ∀ k < U.card + 1, stepSet succ (iterStep succ k S) ≠ iterStep succ k S := by
    intro k hk hfix
    have hkle : k ≤ U.card := Nat.lt_succ_iff.1 hk
    obtain ⟨m, hm⟩ := Nat.exists_eq_add_of_le hkle
    have heq : iterStep succ U.card S = iterStep succ k S := by
      rw [hm]
      exact iterStep_fix hfix m
    apply hne
    rw [heq, hfix]
  have hgrow := card_le_iterStep hall
  have hbound := Finset.card_le_card (iterStep_subset_univ hsucc hS (U.card + 1))
  omega

theorem transGen_of_mem_iterStep {v : α} {S : Finset α}
    (hS : ∀ s ∈ S, Relation.TransGen (fun a b => b ∈ succ a) v s) (n : Nat) :
    ∀ u ∈ iterStep succ n S, Relation.TransGen (fun a b => b ∈ succ a) v u := by
  induction n with
  | zero => exact hS
  | succ n ih =>
    intro u hu
    rw [iterStep_succ_eq, stepSet] at hu
    rcases Finset.mem_union.1 hu with h | h
    · exact ih u h
    · rcases Finset.mem_biUnion.1 h with ⟨y, hy, hu'⟩
      exact Relation.TransGen.tail (ih y hy) hu'

end TCLemmas

section DescMapLemmas

variable {K V : Type} [DecidableEq K]

theorem mem_childrenOfMap {get : V → Finset K} {m : List (K × V)} {v x : K} :
    x ∈ childrenOfMap get m v ↔ ∃ kv ∈ m, kv.1 = v ∧ x ∈ get kv.2 := by
  rw [childrenOfMap]
  simpa using
    mem_foldl_cond_union (P := fun kv : K × V => kv.1 = v) (g := fun kv => get kv.2) m ∅ x

theorem mem_targetsOfMap {get : V → Finset K} {m : List (K × V)} {x : K} :
    x ∈ targetsOfMap get m ↔ ∃ kv ∈ m, x ∈ get kv.2 := by
  have main : ∀ (m : List (K × V)) (s₀ : Finset K),
      x ∈ m.foldl (fun s kv => s ∪ get kv.2) s₀ ↔ x ∈ s₀ ∨ ∃ kv ∈ m, x ∈ get kv.2 := by
    intro m
    induction m with
    | nil => simp
    | cons kv rest ih =>
      intro s₀
      rw [List.foldl_cons, ih]
      simp only [Finset.mem_union, List.mem_cons]
      constructor
      · rintro ((h | h) | ⟨kv', h', hx⟩)
        · exact Or.inl h
        · exact Or.inr ⟨kv, Or.inl rfl, h⟩
        · exact Or.inr ⟨kv', Or.inr h', hx⟩
      · rintro (h | ⟨kv', (h' | h'), hx⟩)
        · exact Or.inl (Or.inl h)
        · subst h'
          exact Or.inl (Or.inr hx)
        · exact Or.inr ⟨kv', h', hx⟩
  rw [targetsOfMap, main]
  simp

theorem childrenOfMap_subset_targets (get : V → Finset K) (m : List (K × V)) (v : K) :
    childrenOfMap get m v ⊆ targetsOfMap get m := by
  intro x hx
  rcases mem_childrenOfMap.1 hx with ⟨kv, hkv, _, hmem⟩
  exact mem_targetsOfMap.2 ⟨kv, hkv, hmem⟩

/-- The computed descendant set of `v` is exactly the set of nodes reachable
from `v` by one or more child edges. -/
theorem mem_descOfMap_iff {get : V → Finset K} {m : List (K × V)} {v u : K} :
    u ∈ descOfMap get m v ↔
      Relation.TransGen (fun a b => b ∈ childrenOfMap get m a) v u := by
  constructor
  · intro hu
    exact transGen_of_mem_iterStep (fun s hs => Relation.TransGen.single hs) _ u hu
  · intro h
    have hsucc : ∀ x, childrenOfMap get m x ⊆ targetsOfMap get m :=
      childrenOfMap_subset_targets get m
    have hfix := stepSet_iterStep_card_fix hsucc (hsucc v)
    have hclosed : ∀ x ∈ descOfMap get m v,
        childrenOfMap get m x ⊆ descOfMap get m v := by
      intro x hx y hy
      have hmem : y ∈ stepSet (childrenOfMap get m) (descOfMap get m v) :=
        Finset.mem_union_right _ (Finset.mem_biUnion.2 ⟨x, hx, hy⟩)
      rw [descOfMap] at hmem ⊢
      rwa [hfix] at hmem
    have hbase : childrenOfMap get m v ⊆ descOfMap get m v := subset_iterStep _ _
    induction h with
    | single h' => exact hbase h'
    | tail _ hstep ih => exact hclosed _ ih hstep

theorem assocFind_tcDescMap {get : V → Finset K} {setD : V → Finset K → V}
    {m : List (K × V)} {k : K} :
    assocFind (tcDescMap get setD m) k =
      (assocFind m k).map (fun v => setD v (descOfMap get m k)) := by
  rw [tcDescMap]
  exact assocFind_map_val (fun k v => setD v (descOfMap get m k))

theorem keys_tcDescMap {get : V → Finset K} {setD : V → Finset K → V}
    {m : List (K × V)} :
    (tcDescMap get setD m).map Prod.fst = m.map Prod.fst := by
  simp [tcDescMap]

theorem mem_tcDescMap_iff {get : V → Finset K} {setD : V → Finset K → V}
    {m : List (K × V)} {kv' : K × V} :
    kv' ∈ tcDescMap get setD m ↔
      ∃ kv ∈ m, kv' = (kv.1, setD kv.2 (descOfMap get m kv.1)) := by
  simp only [tcDescMap, List.mem_map]
  constructor
  · rintro ⟨kv, hkv, h⟩
    exact ⟨kv, hkv, h.symm⟩
  · rintro ⟨kv, hkv, h⟩
    exact ⟨kv, hkv, h.symm⟩

end DescMapLemmas

/-! ## Lemmas: the construction loops -/

section BuildLemmas

variable {K A V : Type} [DecidableEq K]
variable {tds : List (Name × Ty)} {shapeOf : A → UTy} {err : K → SchemaError}
variable {mk : K → A → TyAttrs → V}

theorem buildResolved_cons_elim {k : K} {a : A} {rest : List (K × A)}
    {l' : List (K × V)}
    (h : buildResolved tds shapeOf err mk ((k, a) :: rest) = .ok l') :
    ∃ ty attrs rest', resolveTypeDefs tds (shapeOf a) = .ok ty ∧
      recordAttributesOrNone ty = Option.some attrs ∧
      buildResolved tds shapeOf err mk rest = .ok rest' ∧
      l' = (k, mk k a attrs) :: rest' := by
  rw [buildResolved] at h
  cases hres : resolveTypeDefs tds (shapeOf a) with
  | error e =>
    rw [hres] at h
    simp [Bind.bind, Except.bind] at h
  | ok ty =>
    rw [hres] at h
    simp only [Bind.bind, Except.bind] at h
    cases hrec : recordAttributesOrNone ty with
    | none =>
      rw [hrec] at h
      simp at h
    | some attrs =>
      rw [hrec] at h
      cases hrest : buildResolved tds shapeOf err mk rest with
      | error e =>
        rw [hrest] at h
        simp [Bind.bind, Except.bind] at h
      | ok rest' =>
        rw [hrest] at h
        simp only [Bind.bind, Except.bind] at h
        cases h
        exact ⟨ty, attrs, rest', rfl, hrec, rfl, rfl⟩

theorem buildResolved_keys {l : List (K × A)} {l' : List (K × V)}
    (h : buildResolved tds shapeOf err mk l = .ok l') :
    l'.map Prod.fst = l.map Prod.fst := by
  induction l generalizing l' with
  | nil =>
    rw [buildResolved] at h
    cases h
    rfl
  | cons kv rest ih =>
    obtain ⟨k, a⟩ := kv
    obtain ⟨ty, attrs, rest', _, _, hrest, hl⟩ := buildResolved_cons_elim h
    subst hl
    simp [ih hrest]

theorem buildResolved_find {l : List (K × A)} {l' : List (K × V)}
    (h : buildResolved tds shapeOf err mk l = .ok l') {k : K} {a : A}
    (hk : assocFind l k = Option.some a) :
    ∃ ty attrs, resolveTypeDefs tds (shapeOf a) = .ok ty ∧
      recordAttributesOrNone ty = Option.some attrs ∧
      assocFind l' k = Option.some (mk k a attrs) := by
  induction l generalizing l' with
  | nil => simp [assocFind] at hk
  | cons kv rest ih =>
    obtain ⟨k', a'⟩ := kv
    obtain ⟨ty, attrs, rest', hres, hrec, hrest, hl⟩ := buildResolved_cons_elim h
    subst hl
    by_cases hkk : k' = k
    · subst hkk
      rw [assocFind, if_pos rfl] at hk
      cases hk
      exact ⟨ty, attrs, hres, hrec, by rw [assocFind, if_pos rfl]⟩
    · rw [assocFind, if_neg hkk] at hk
      obtain ⟨ty', attrs', hres', hrec', hfind⟩ := ih hrest hk
      exact ⟨ty', attrs', hres', hrec', by rw [assocFind, if_neg hkk]; exact hfind⟩

theorem buildResolved_mem {l : List (K × A)} {l' : List (K × V)}
    (h : buildResolved tds shapeOf err mk l = .ok l') {kv' : K × V}
    (hkv : kv' ∈ l') :
    ∃ a ty attrs, (kv'.1, a) ∈ l ∧ resolveTypeDefs tds (shapeOf a) = .ok ty ∧
      recordAttributesOrNone ty = Option.some attrs ∧ kv'.2 = mk kv'.1 a attrs := by
  induction l generalizing l' with
  | nil =>
    rw [buildResolved] at h
    cases h
    cases hkv
  | cons kv rest ih =>
    obtain ⟨k, a⟩ := kv
    obtain ⟨ty, attrs, rest', hres, hrec, hrest, hl⟩ := buildResolved_cons_elim h
    subst hl
    rcases List.mem_cons.1 hkv with h' | h'
    · subst h'
      exact ⟨a, ty, attrs, List.mem_cons_self _ _, hres, hrec, rfl⟩
    · obtain ⟨a', ty', attrs', hmem, hres', hrec', hval⟩ := ih hrest h'
      exact ⟨a', ty', attrs', List.mem_cons_of_mem _ hmem, hres', hrec', hval⟩

end BuildLemmas

/-! ## Lemmas: cycle check and undeclared check -/

theorem tcActionIds_ok_elim {l l' : List (EntityUID × ValidatorActionId)}
    (h : tcActionIds l = .ok l') :
    l' = tcDescMap (fun v => v.descendants) (fun v d => { v with descendants := d }) l ∧
      ∀ kv ∈ l', kv.1 ∉ kv.2.descendants := by
  rw [tcActionIds] at h
  by_cases hany : (tcDescMap (fun v => v.descendants)
      (fun v d => { v with descendants := d }) l).any
      (fun kv => decide (kv.1 ∈ kv.2.descendants)) = true
  · rw [if_pos hany] at h
    cases h
  · rw [if_neg hany] at h
    cases h
    refine ⟨rfl, ?_⟩
    intro kv hkv hself
    exact hany (List.any_eq_true.2 ⟨kv, hkv, by simpa using hself⟩)

theorem tcActionIds_error_of_cycle {l : List (EntityUID × ValidatorActionId)}
    {kv : EntityUID × ValidatorActionId}
    (hkv : kv ∈ tcDescMap (fun v => v.descendants)
      (fun v d => { v with descendants := d }) l)
    (hself : kv.1 ∈ kv.2.descendants) :
    tcActionIds l = .error .cycleInActionHierarchy := by
  rw [tcActionIds, if_pos]
  exact List.any_eq_true.2 ⟨kv, hkv, by simpa using hself⟩

theorem checkForUndeclared_ok_elim {ets : List (Name × ValidatorEntityType)}
    {pE : Finset Name} {acs : List (EntityUID × ValidatorActionId)}
    {pA : Finset EntityUID}
    (h : checkForUndeclared ets pE acs pA = .ok ()) :
    undeclaredEntitySet ets pE acs = ∅ ∧ undeclaredActionSet pA = ∅ := by
  rw [checkForUndeclared] at h
  by_cases hE : undeclaredEntitySet ets pE acs ≠ ∅
  · rw [if_pos hE] at h
    cases h
  · rw [if_neg hE] at h
    by_cases hA : undeclaredActionSet pA ≠ ∅
    · rw [if_pos hA] at h
      cases h
    · push_neg at hE hA
      exact ⟨hE, hA⟩

theorem checkForUndeclared_error_entity {ets : List (Name × ValidatorEntityType)}
    {pE : Finset Name} {acs : List (EntityUID × ValidatorActionId)}
    {pA : Finset EntityUID}
    (h : undeclaredEntitySet ets pE acs ≠ ∅) :
    checkForUndeclared ets pE acs pA =
      .error (.undeclaredEntityTypes (undeclaredEntitySet ets pE acs)) := by
  rw [checkForUndeclared, if_pos h]

theorem checkForUndeclared_error_elim {ets : List (Name × ValidatorEntityType)}
    {pE : Finset Name} {acs : List (EntityUID × ValidatorActionId)}
    {pA : Finset EntityUID} {e : SchemaError}
    (h : checkForUndeclared ets pE acs pA = .error e) :
    (e = .undeclaredEntityTypes (undeclaredEntitySet ets pE acs) ∧
      undeclaredEntitySet ets pE acs ≠ ∅) ∨
    (e = .undeclaredActions (undeclaredActionSet pA) ∧
      undeclaredEntitySet ets pE acs = ∅ ∧ undeclaredActionSet pA ≠ ∅) := by
  rw [checkForUndeclared] at h
  by_cases hE : undeclaredEntitySet ets pE acs ≠ ∅
  · rw [if_pos hE] at h
    cases h
    exact Or.inl ⟨rfl, hE⟩
  · rw [if_neg hE] at h
    push_neg at hE
    by_cases hA : undeclaredActionSet pA ≠ ∅
    · rw [if_pos hA] at h
      cases h
      exact Or.inr ⟨rfl, hE, hA⟩
    · rw [if_neg hA] at h
      cases h

/-! ## Lemmas: the undeclared-name accumulators -/

section UndeclaredLemmas

theorem mem_lubFold {ets : List (Name × ValidatorEntityType)} (lub : List Name)
    (s₀ : Finset String) (x : String) :
    x ∈ lub.foldl (fun s n => if (assocFind ets n).isSome then s else insert n s) s₀ ↔
      x ∈ s₀ ∨ (x ∈ lub ∧ assocFind ets x = Option.none) := by
  induction lub generalizing s₀ with
  | nil => simp
  | cons n rest ih =>
    rw [List.foldl_cons, ih]
    by_cases hn : (assocFind ets n).isSome
    · rw [if_pos hn]
      simp only [List.mem_cons]
      constructor
      · rintro (h | ⟨hx, hnone⟩)
        · exact Or.inl h
        · exact Or.inr ⟨Or.inr hx, hnone⟩
      · rintro (h | ⟨(hx | hx), hnone⟩)
        · exact Or.inl h
        · subst hx
          rw [hnone] at hn
          cases hn
        · exact Or.inr ⟨hx, hnone⟩
    · rw [if_neg hn]
      simp only [Finset.mem_insert, List.mem_cons]
      constructor
      · rintro ((hx | h) | ⟨hx, hnone⟩)
        · subst hx
          refine Or.inr ⟨Or.inl rfl, ?_⟩
          cases hfind : assocFind ets x with
          | none => rfl
          | some v =>
            rw [hfind] at hn
            cases hn rfl
        · exact Or.inl h
        · exact Or.inr ⟨Or.inr hx, hnone⟩
      · rintro (h | ⟨(hx | hx), hnone⟩)
        · exact Or.inl (Or.inr h)
        · exact Or.inl (Or.inl hx)
        · exact Or.inr ⟨hx, hnone⟩

theorem mem_applySpecFold {ets : List (Name × ValidatorEntityType)}
    (spec : List EntityType) (s₀ : Finset String) (x : String) :
    x ∈ undeclaredInApplySpec ets spec s₀ ↔
      x ∈ s₀ ∨ (EntityType.concrete x ∈ spec ∧ assocFind ets x = Option.none) := by
  rw [undeclaredInApplySpec]
  induction spec generalizing s₀ with
  | nil => simp
  | cons et rest ih =>
    rw [List.foldl_cons, ih]
    cases et with
    | unspecified =>
      simp only [List.mem_cons]
      constructor
      · rintro (h | ⟨hx, hnone⟩)
        · exact Or.inl h
        · exact Or.inr ⟨Or.inr hx, hnone⟩
      · rintro (h | ⟨(hx | hx), hnone⟩)
        · exact Or.inl h
        · cases hx
        · exact Or.inr ⟨hx, hnone⟩
    | concrete n =>
      by_cases hn : (assocFind ets n).isSome
      · simp only [if_pos hn, List.mem_cons]
        constructor
        · rintro (h | ⟨hx, hnone⟩)
          · exact Or.inl h
          · exact Or.inr ⟨Or.inr hx, hnone⟩
        · rintro (h | ⟨(hx | hx), hnone⟩)
          · exact Or.inl h
          · cases hx
            rw [hnone] at hn
            cases hn
          · exact Or.inr ⟨hx, hnone⟩
      · simp only [if_neg hn, Finset.mem_insert, List.mem_cons]
        constructor
        · rintro ((hx | h) | ⟨hx, hnone⟩)
          · subst hx
            refine Or.inr ⟨Or.inl rfl, ?_⟩
            cases hfind : assocFind ets x with
            | none => rfl
            | some v =>
              rw [hfind] at hn
              cases hn rfl
          · exact Or.inl h
          · exact Or.inr ⟨Or.inr hx, hnone⟩
        · rintro (h | ⟨(hx | hx), hnone⟩)
          · exact Or.inl (Or.inr h)
          · cases hx
            exact Or.inl (Or.inl rfl)
          · exact Or.inr ⟨hx, hnone⟩

theorem subset_applySpecFold {ets : List (Name × ValidatorEntityType)}
    {spec : List EntityType} {s₀ : Finset String} :
    s₀ ⊆ undeclaredInApplySpec ets spec s₀ := by
  intro x hx
  exact (mem_applySpecFold spec s₀ x).2 (Or.inl hx)

end UndeclaredLemmas

mutual
theorem subset_checkUndeclaredInType (ets : List (Name × ValidatorEntityType)) :
    (t : Ty) → (s : Finset String) → s ⊆ checkUndeclaredInType ets t s
  | .entity lub, s => by
    rw [checkUndeclaredInType]
    intro x hx
    exact (mem_lubFold lub s x).2 (Or.inl hx)
  | .record attrs _, s => by
    rw [checkUndeclaredInType]
    exact subset_checkUndeclaredInAttrs ets attrs s
  | .set e, s => by
    rw [checkUndeclaredInType]
    exact subset_checkUndeclaredInOTy ets e s
  | .bool, s => by
    rw [checkUndeclaredInType]
  | .long, s => by
    rw [checkUndeclaredInType]
  | .string, s => by
    rw [checkUndeclaredInType]
  | .ext n, s => by
    rw [checkUndeclaredInType]

theorem subset_checkUndeclaredInOTy (ets : List (Name × ValidatorEntityType)) :
    (e : OTy) → (s : Finset String) → s ⊆ checkUndeclaredInOTy ets e s
  | .none, s => by
    rw [checkUndeclaredInOTy]
  | .some t, s => by
    rw [checkUndeclaredInOTy]
    exact subset_checkUndeclaredInType ets t s

theorem subset_checkUndeclaredInAttrs (ets : List (Name × ValidatorEntityType)) :
    (attrs : TyAttrs) → (s : Finset String) → s ⊆ checkUndeclaredInAttrs ets attrs s
  | .nil, s => by
    rw [checkUndeclaredInAttrs]
  | .cons n t r rest, s => by
    rw [checkUndeclaredInAttrs]
    exact (subset_checkUndeclaredInType ets t s).trans
      (subset_checkUndeclaredInAttrs ets rest _)
end

mutual
theorem mem_checkUndeclaredInType (ets : List (Name × ValidatorEntityType)) :
    (t : Ty) → (n : Name) → n ∈ lubNames t → assocFind ets n = Option.none →
      (s : Finset String) → n ∈ checkUndeclaredInType ets t s
  | .entity lub, n, hn, hnone, s => by
    rw [checkUndeclaredInType]
    rw [lubNames] at hn
    exact (mem_lubFold lub s n).2 (Or.inr ⟨hn, hnone⟩)
  | .record attrs _, n, hn, hnone, s => by
    rw [checkUndeclaredInType]
    rw [lubNames] at hn
    exact mem_checkUndeclaredInAttrs ets attrs n hn hnone s
  | .set e, n, hn, hnone, s => by
    rw [checkUndeclaredInType]
    rw [lubNames] at hn
    exact mem_checkUndeclaredInOTy ets e n hn hnone s

theorem mem_checkUndeclaredInOTy (ets : List (Name × ValidatorEntityType)) :
    (e : OTy) → (n : Name) → n ∈ lubNamesO e → assocFind ets n = Option.none →
      (s : Finset String) → n ∈ checkUndeclaredInOTy ets e s
  | .some t, n, hn, hnone, s => by
    rw [checkUndeclaredInOTy]
    rw [lubNamesO] at hn
    exact mem_checkUndeclaredInType ets t n hn hnone s

theorem mem_checkUndeclaredInAttrs (ets : List (Name × ValidatorEntityType)) :
    (attrs : TyAttrs) → (n : Name) → n ∈ lubNamesAttrs attrs →
      assocFind ets n = Option.none →
      (s : Finset String) → n ∈ checkUndeclaredInAttrs ets attrs s
  | .cons a t r rest, n, hn, hnone, s => by
    rw [checkUndeclaredInAttrs]
    rw [lubNamesAttrs] at hn
    rcases List.mem_append.1 hn with h | h
    · exact subset_checkUndeclaredInAttrs ets rest _
        (mem_checkUndeclaredInType ets t n h hnone s)
    · exact mem_checkUndeclaredInAttrs ets rest n h hnone _
end

section UndeclaredSetLemmas

theorem subset_undeclaredEntitySet {ets : List (Name × ValidatorEntityType)}
    {pE : Finset Name} {acs : List (EntityUID × ValidatorActionId)} :
    pE ⊆ undeclaredEntitySet ets pE acs := by
  rw [undeclaredEntitySet]
  refine Finset.Subset.trans
    (subset_foldl_of_infl (fun s kv => subset_checkUndeclaredInAttrs ets kv.2.attributes s)
      ets pE)
    (subset_foldl_of_infl ?_ acs _)
  intro s kv
  exact Finset.Subset.trans (subset_checkUndeclaredInAttrs ets kv.2.context s)
    (Finset.Subset.trans subset_applySpecFold subset_applySpecFold)

theorem mem_undeclaredEntitySet_attr {ets : List (Name × ValidatorEntityType)}
    {pE : Finset Name} {acs : List (EntityUID × ValidatorActionId)}
    {kv : Name × ValidatorEntityType} (hkv : kv ∈ ets) {n : Name}
    (hn : n ∈ lubNamesAttrs kv.2.attributes) (hnone : assocFind ets n = Option.none) :
    n ∈ undeclaredEntitySet ets pE acs := by
  rw [undeclaredEntitySet]
  refine subset_foldl_of_infl ?_ acs _ ?_
  · intro s kv'
    exact Finset.Subset.trans (subset_checkUndeclaredInAttrs ets kv'.2.context s)
      (Finset.Subset.trans subset_applySpecFold subset_applySpecFold)
  · exact mem_foldl_of_mem_elem
      (fun s kv' => subset_checkUndeclaredInAttrs ets kv'.2.attributes s) hkv
      (fun s => mem_checkUndeclaredInAttrs ets kv.2.attributes n hn hnone s) pE

theorem mem_undeclaredEntitySet_action {ets : List (Name × ValidatorEntityType)}
    {pE : Finset Name} {acs : List (EntityUID × ValidatorActionId)}
    {kv : EntityUID × ValidatorActionId} (hkv : kv ∈ acs) {n : Name}
    (hsrc : n ∈ lubNamesAttrs kv.2.context ∨
      EntityType.concrete n ∈ kv.2.appliesTo.principalApplySpec ∨
      EntityType.concrete n ∈ kv.2.appliesTo.resourceApplySpec)
    (hnone : assocFind ets n = Option.none) :
    n ∈ undeclaredEntitySet ets pE acs := by
  rw [undeclaredEntitySet]
  refine mem_foldl_of_mem_elem ?_ hkv ?_ _
  · intro s kv'
    exact Finset.Subset.trans (subset_checkUndeclaredInAttrs ets kv'.2.context s)
      (Finset.Subset.trans subset_applySpecFold subset_applySpecFold)
  · intro s
    rcases hsrc with h | h | h
    · exact subset_applySpecFold (subset_applySpecFold
        (mem_checkUndeclaredInAttrs ets kv.2.context n h hnone s))
    · exact subset_applySpecFold
        ((mem_applySpecFold _ _ n).2 (Or.inr ⟨h, hnone⟩))
    · exact (mem_applySpecFold _ _ n).2 (Or.inr ⟨h, hnone⟩)

end UndeclaredSetLemmas

/-! ## Lemmas: fragment merging -/

section MergeLemmas

variable {K V : Type} [DecidableEq K] {err : K → SchemaError}

theorem insertUnique_ok_elim {m m' : List (K × V)} {k : K} {v : V}
    (h : insertUnique err m k v = .ok m') :
    assocFind m k = Option.none ∧ m' = (k, v) :: m := by
  rw [insertUnique] at h
  cases hfind : assocFind m k with
  | some w =>
    rw [hfind] at h
    cases h
  | none =>
    rw [hfind] at h
    cases h
    exact ⟨rfl, rfl⟩

theorem insertUnique_error_elim {m : List (K × V)} {k : K} {v : V} {e : SchemaError}
    (h : insertUnique err m k v = .error e) :
    e = err k ∧ k ∈ m.map Prod.fst := by
  rw [insertUnique] at h
  cases hfind : assocFind m k with
  | some w =>
    rw [hfind] at h
    cases h
    refine ⟨rfl, ?_⟩
    apply assocFind_isSome_iff.1
    rw [hfind]
    rfl
  | none =>
    rw [hfind] at h
    cases h

theorem insertAll_cons_elim {m m' : List (K × V)} {k : K} {v : V}
    {rest : List (K × V)}
    (h : insertAll err m ((k, v) :: rest) = .ok m') :
    assocFind m k = Option.none ∧ insertAll err ((k, v) :: m) rest = .ok m' := by
  rw [insertAll] at h
  cases hins : insertUnique err m k v with
  | error e =>
    rw [hins] at h
    simp [Bind.bind, Except.bind] at h
  | ok m₁ =>
    rw [hins] at h
    simp only [Bind.bind, Except.bind] at h
    obtain ⟨hfind, hm₁⟩ := insertUnique_ok_elim hins
    subst hm₁
    exact ⟨hfind, h⟩

theorem insertAll_ok_keys {l : List (K × V)} {m m' : List (K × V)}
    (h : insertAll err m l = .ok m') :
    m'.map Prod.fst = (l.map Prod.fst).reverse ++ m.map Prod.fst := by
  induction l generalizing m with
  | nil =>
    rw [insertAll] at h
    cases h
    simp
  | cons kv rest ih =>
    obtain ⟨k, v⟩ := kv
    obtain ⟨hfind, h'⟩ := insertAll_cons_elim h
    rw [ih h']
    simp

theorem insertAll_ok_iff {l : List (K × V)} {m : List (K × V)}
    (hm : (m.map Prod.fst).Nodup) :
    (∃ m', insertAll err m l = .ok m') ↔
      (m.map Prod.fst ++ l.map Prod.fst).Nodup := by
  induction l generalizing m with
  | nil =>
    simp only [insertAll, List.map_nil, List.append_nil]
    exact ⟨fun _ => hm, fun _ => ⟨m, rfl⟩⟩
  | cons kv rest ih =>
    obtain ⟨k, v⟩ := kv
    constructor
    · rintro ⟨m', h⟩
      obtain ⟨hfind, h'⟩ := insertAll_cons_elim h
      have hknot : k ∉ m.map Prod.fst := assocFind_eq_none_iff.1 hfind
      have hm₁ : (((k, v) :: m).map Prod.fst).Nodup := by
        simp [hknot, hm]
      have hnd := (ih hm₁).1 ⟨m', h'⟩
      have hperm : ((((k, v) :: m).map Prod.fst) ++ rest.map Prod.fst).Perm
          (m.map Prod.fst ++ ((k, v) :: rest).map Prod.fst) := by
        simp only [List.map_cons, List.cons_append]
        exact List.perm_middle.symm
      exact hperm.nodup hnd
    · intro hnodup
      simp only [List.map_cons] at hnodup
      obtain ⟨h1, h2, hdisj⟩ := List.nodup_append.1 hnodup
      have hmk : assocFind m k = Option.none := by
        rw [assocFind_eq_none_iff]
        intro hk
        exact hdisj hk (List.mem_cons_self _ _)
      have hm₁ : (((k, v) :: m).map Prod.fst).Nodup := by
        have hknot : k ∉ m.map Prod.fst := assocFind_eq_none_iff.1 hmk
        simp [hknot, hm]
      have hnodup' : (((k, v) :: m).map Prod.fst ++ rest.map Prod.fst).Nodup := by
        have hperm : (m.map Prod.fst ++ (k :: rest.map Prod.fst)).Perm
            (((k, v) :: m).map Prod.fst ++ rest.map Prod.fst) := by
          simp only [List.map_cons, List.cons_append]
          exact List.perm_middle
        exact hperm.nodup hnodup
      obtain ⟨m', h'⟩ := (ih hm₁).2 hnodup'
      refine ⟨m', ?_⟩
      rw [insertAll, insertUnique, hmk]
      simpa [Bind.bind, Except.bind] using h'

theorem insertAll_error_count {l : List (K × V)} {m : List (K × V)} {e : SchemaError}
    (h : insertAll err m l = .error e) :
    ∃ k, e = err k ∧ 2 ≤ (m.map Prod.fst ++ l.map Prod.fst).count k := by
  induction l generalizing m with
  | nil =>
    rw [insertAll] at h
    cases h
  | cons kv rest ih =>
    obtain ⟨k, v⟩ := kv
    rw [insertAll] at h
    cases hins : insertUnique err m k v with
    | error e' =>
      rw [hins] at h
      simp only [Bind.bind, Except.bind] at h
      cases h
      obtain ⟨he, hk⟩ := insertUnique_error_elim hins
      refine ⟨k, he, ?_⟩
      have h1 : 0 < (m.map Prod.fst).count k := List.count_pos_iff.2 hk
      simp only [List.count_append, List.map_cons, List.count_cons_self]
      omega
    | ok m₁ =>
      rw [hins] at h
      simp only [Bind.bind, Except.bind] at h
      obtain ⟨hfind, hm₁⟩ := insertUnique_ok_elim hins
      subst hm₁
      obtain ⟨k', he, hcount⟩ := ih h
      refine ⟨k', he, ?_⟩
      have hperm : (((k, v) :: m).map Prod.fst ++ rest.map Prod.fst).Perm
          (m.map Prod.fst ++ ((k, v) :: rest).map Prod.fst) := by
        simp only [List.map_cons, List.cons_append]
        exact List.perm_middle.symm
      rw [← hperm.count_eq]
      exact hcount

end MergeLemmas

section MergeFragmentLemmas

theorem mergeNamespaceDef_ok_elim {acc m : MergedFragments}
    {ns : ValidatorNamespaceDef} (h : mergeNamespaceDef acc ns = .ok m) :
    insertAll (fun n => .duplicateCommonType n) acc.typeDefs ns.typeDefs = .ok m.typeDefs ∧
    insertAll (fun n => .duplicateEntityType n) acc.entityTypeFragments ns.entityTypes =
      .ok m.entityTypeFragments ∧
    insertAll (fun u => .duplicateAction u.str) acc.actionFragments ns.actions =
      .ok m.actionFragments := by
  rw [mergeNamespaceDef] at h
  cases hT : insertAll (fun n => .duplicateCommonType n) acc.typeDefs ns.typeDefs with
  | error e =>
    rw [hT] at h
    simp [Bind.bind, Except.bind] at h
  | ok t =>
    rw [hT] at h
    simp only [Bind.bind, Except.bind] at h
    cases hE : insertAll (fun n => .duplicateEntityType n) acc.entityTypeFragments
        ns.entityTypes with
    | error e =>
      rw [hE] at h
      simp at h
    | ok e =>
      rw [hE] at h
      simp only [] at h
      cases hA : insertAll (fun u => .duplicateAction u.str) acc.actionFragments
          ns.actions with
      | error e' =>
        rw [hA] at h
        simp [Pure.pure, Except.pure] at h
      | ok a =>
        rw [hA] at h
        simp only [Pure.pure, Except.pure] at h
        cases h
        exact ⟨rfl, rfl, rfl⟩

theorem mergeNamespaceDef_error_elim {acc : MergedFragments}
    {ns : ValidatorNamespaceDef} {e : SchemaError}
    (h : mergeNamespaceDef acc ns = .error e) :
    insertAll (fun n => .duplicateCommonType n) acc.typeDefs ns.typeDefs = .error e ∨
    insertAll (fun n => .duplicateEntityType n) acc.entityTypeFragments ns.entityTypes =
      .error e ∨
    insertAll (fun u => .duplicateAction u.str) acc.actionFragments ns.actions =
      .error e := by
  rw [mergeNamespaceDef] at h
  cases hT : insertAll (fun n => .duplicateCommonType n) acc.typeDefs ns.typeDefs with
  | error e' =>
    rw [hT] at h
    simp only [Bind.bind, Except.bind] at h
    cases h
    exact Or.inl rfl
  | ok t =>
    rw [hT] at h
    simp only [Bind.bind, Except.bind] at h
    cases hE : insertAll (fun n => .duplicateEntityType n) acc.entityTypeFragments
        ns.entityTypes with
    | error e' =>
      rw [hE] at h
      simp only [] at h
      cases h
      exact Or.inr (Or.inl rfl)
    | ok e' =>
      rw [hE] at h
      simp only [] at h
      cases hA : insertAll (fun u => .duplicateAction u.str) acc.actionFragments
          ns.actions with
      | error e'' =>
        rw [hA] at h
        simp only [Pure.pure, Except.pure] at h
        cases h
        exact Or.inr (Or.inr rfl)
      | ok a =>
        rw [hA] at h
        simp [Pure.pure, Except.pure] at h

theorem mergeNamespaceDef_ok_of {acc : MergedFragments} {ns : ValidatorNamespaceDef}
    {t : List (Name × Ty)} {e : List (Name × EntityTypeFragment)}
    {a : List (EntityUID × ActionFragment)}
    (hT : insertAll (fun n => .duplicateCommonType n) acc.typeDefs ns.typeDefs = .ok t)
    (hE : insertAll (fun n => .duplicateEntityType n) acc.entityTypeFragments
      ns.entityTypes = .ok e)
    (hA : insertAll (fun u => .duplicateAction u.str) acc.actionFragments
      ns.actions = .ok a) :
    mergeNamespaceDef acc ns = .ok ⟨t, e, a⟩ := by
  rw [mergeNamespaceDef, hT, hE, hA]
  rfl

end MergeFragmentLemmas

section MergeAuxLemmas

theorem typeDefNames_cons (ns : ValidatorNamespaceDef) (rest : List ValidatorNamespaceDef) :
    typeDefNames (ns :: rest) = ns.typeDefs.map Prod.fst ++ typeDefNames rest := by
  simp [typeDefNames]

theorem entityDeclNames_cons (ns : ValidatorNamespaceDef)
    (rest : List ValidatorNamespaceDef) :
    entityDeclNames (ns :: rest) = ns.entityTypes.map Prod.fst ++ entityDeclNames rest := by
  simp [entityDeclNames]

theorem actionDeclUids_cons (ns : ValidatorNamespaceDef)
    (rest : List ValidatorNamespaceDef) :
    actionDeclUids (ns :: rest) = ns.actions.map Prod.fst ++ actionDeclUids rest := by
  simp [actionDeclUids]

theorem mergeFragmentsAux_cons_elim {ns : ValidatorNamespaceDef}
    {rest : List ValidatorNamespaceDef} {acc m : MergedFragments}
    (h : mergeFragmentsAux (ns :: rest) acc = .ok m) :
    ∃ acc', mergeNamespaceDef acc ns = .ok acc' ∧ mergeFragmentsAux rest acc' = .ok m := by
  rw [mergeFragmentsAux] at h
  cases hns : mergeNamespaceDef acc ns with
  | error e =>
    rw [hns] at h
    simp [Bind.bind, Except.bind] at h
  | ok acc' =>
    rw [hns] at h
    simp only [Bind.bind, Except.bind] at h
    exact ⟨acc', rfl, h⟩

theorem mergeFragmentsAux_ok_keys {defs : List ValidatorNamespaceDef}
    {acc m : MergedFragments} (h : mergeFragmentsAux defs acc = .ok m) :
    (m.typeDefs.map Prod.fst).Perm (acc.typeDefs.map Prod.fst ++ typeDefNames defs) ∧
    (m.entityTypeFragments.map Prod.fst).Perm
      (acc.entityTypeFragments.map Prod.fst ++ entityDeclNames defs) ∧
    (m.actionFragments.map Prod.fst).Perm
      (acc.actionFragments.map Prod.fst ++ actionDeclUids defs) := by
  induction defs generalizing acc with
  | nil =>
    rw [mergeFragmentsAux] at h
    cases h
    simp [typeDefNames, entityDeclNames, actionDeclUids]
  | cons ns rest ih =>
    obtain ⟨acc', hns, haux⟩ := mergeFragmentsAux_cons_elim h
    obtain ⟨hT, hE, hA⟩ := mergeNamespaceDef_ok_elim hns
    obtain ⟨ihT, ihE, ihA⟩ := ih haux
    refine ⟨?_, ?_, ?_⟩
    · rw [typeDefNames_cons, ← List.append_assoc]
      refine ihT.trans ?_
      rw [insertAll_ok_keys hT]
      exact (((List.reverse_perm _).append_right _).trans
        (List.perm_append_comm)).append_right _
    · rw [entityDeclNames_cons, ← List.append_assoc]
      refine ihE.trans ?_
      rw [insertAll_ok_keys hE]
      exact (((List.reverse_perm _).append_right _).trans
        (List.perm_append_comm)).append_right _
    · rw [actionDeclUids_cons, ← List.append_assoc]
      refine ihA.trans ?_
      rw [insertAll_ok_keys hA]
      exact (((List.reverse_perm _).append_right _).trans
        (List.perm_append_comm)).append_right _

theorem revAppendPerm {α : Type} (a b c : List α) :
    ((b.reverse ++ a) ++ c).Perm ((a ++ b) ++ c) :=
  (((List.reverse_perm b).append_right a).trans List.perm_append_comm).append_right c

theorem nodup_append_left_of_nodup_append_append {α : Type} {a b c : List α}
    (h : (a ++ (b ++ c)).Nodup) : (a ++ b).Nodup :=
  List.Nodup.sublist
    ((List.append_sublist_append_left a).2 (List.sublist_append_left b c)) h

theorem mergeFragmentsAux_ok_iff {defs : List ValidatorNamespaceDef}
    {acc : MergedFragments}
    (hT : (acc.typeDefs.map Prod.fst).Nodup)
    (hE : (acc.entityTypeFragments.map Prod.fst).Nodup)
    (hA : (acc.actionFragments.map Prod.fst).Nodup) :
    (∃ m, mergeFragmentsAux defs acc = .ok m) ↔
      (acc.typeDefs.map Prod.fst ++ typeDefNames defs).Nodup ∧
      (acc.entityTypeFragments.map Prod.fst ++ entityDeclNames defs).Nodup ∧
      (acc.actionFragments.map Prod.fst ++ actionDeclUids defs).Nodup := by
  induction defs generalizing acc with
  | nil =>
    rw [mergeFragmentsAux]
    simp [typeDefNames, entityDeclNames, actionDeclUids, hT, hE, hA]
  | cons ns rest ih =>
    constructor
    · rintro ⟨m, hm⟩
      obtain ⟨acc', hns, haux⟩ := mergeFragmentsAux_cons_elim hm
      obtain ⟨hTk, hEk, hAk⟩ := mergeNamespaceDef_ok_elim hns
      have hndT : (acc.typeDefs.map Prod.fst ++ ns.typeDefs.map Prod.fst).Nodup :=
        (insertAll_ok_iff hT).1 ⟨_, hTk⟩
      have hndE : (acc.entityTypeFragments.map Prod.fst ++
          ns.entityTypes.map Prod.fst).Nodup :=
        (insertAll_ok_iff hE).1 ⟨_, hEk⟩
      have hndA : (acc.actionFragments.map Prod.fst ++ ns.actions.map Prod.fst).Nodup :=
        (insertAll_ok_iff hA).1 ⟨_, hAk⟩
      have permT : (acc.typeDefs.map Prod.fst ++ ns.typeDefs.map Prod.fst).Perm
          (acc'.typeDefs.map Prod.fst) := by
        rw [insertAll_ok_keys hTk]
        exact List.perm_append_comm.trans ((List.reverse_perm _).symm.append_right _)
      have permE : (acc.entityTypeFragments.map Prod.fst ++
          ns.entityTypes.map Prod.fst).Perm (acc'.entityTypeFragments.map Prod.fst) := by
        rw [insertAll_ok_keys hEk]
        exact List.perm_append_comm.trans ((List.reverse_perm _).symm.append_right _)
      have permA : (acc.actionFragments.map Prod.fst ++ ns.actions.map Prod.fst).Perm
          (acc'.actionFragments.map Prod.fst) := by
        rw [insertAll_ok_keys hAk]
        exact List.perm_append_comm.trans ((List.reverse_perm _).symm.append_right _)
      obtain ⟨ndT, ndE, ndA⟩ :=
        (ih (permT.nodup hndT) (permE.nodup hndE) (permA.nodup hndA)).1 ⟨m, haux⟩
      refine ⟨?_, ?_, ?_⟩
      · rw [typeDefNames_cons, ← List.append_assoc]
        exact (permT.symm.append_right (typeDefNames rest)).nodup ndT
      · rw [entityDeclNames_cons, ← List.append_assoc]
        exact (permE.symm.append_right (entityDeclNames rest)).nodup ndE
      · rw [actionDeclUids_cons, ← List.append_assoc]
        exact (permA.symm.append_right (actionDeclUids rest)).nodup ndA
    · rintro ⟨hnd1, hnd2, hnd3⟩
      rw [typeDefNames_cons] at hnd1
      rw [entityDeclNames_cons] at hnd2
      rw [actionDeclUids_cons] at hnd3
      have hndT := nodup_append_left_of_nodup_append_append hnd1
      have hndE := nodup_append_left_of_nodup_append_append hnd2
      have hndA := nodup_append_left_of_nodup_append_append hnd3
      obtain ⟨t, hTk⟩ := (insertAll_ok_iff hT).2 hndT
      obtain ⟨e', hEk⟩ := (insertAll_ok_iff hE).2 hndE
      obtain ⟨a, hAk⟩ := (insertAll_ok_iff hA).2 hndA
      have hns : mergeNamespaceDef acc ns = .ok ⟨t, e', a⟩ :=
        mergeNamespaceDef_ok_of hTk hEk hAk
      have permT : (acc.typeDefs.map Prod.fst ++ ns.typeDefs.map Prod.fst).Perm
          (t.map Prod.fst) := by
        rw [insertAll_ok_keys hTk]
        exact List.perm_append_comm.trans ((List.reverse_perm _).symm.append_right _)
      have permE : (acc.entityTypeFragments.map Prod.fst ++
          ns.entityTypes.map Prod.fst).Perm (e'.map Prod.fst) := by
        rw [insertAll_ok_keys hEk]
        exact List.perm_append_comm.trans ((List.reverse_perm _).symm.append_right _)
      have permA : (acc.actionFragments.map Prod.fst ++ ns.actions.map Prod.fst).Perm
          (a.map Prod.fst) := by
        rw [insertAll_ok_keys hAk]
        exact List.perm_append_comm.trans ((List.reverse_perm _).symm.append_right _)
      have ndT' : (t.map Prod.fst ++ typeDefNames rest).Nodup := by
        rw [← List.append_assoc] at hnd1
        exact (permT.append_right (typeDefNames rest)).nodup hnd1
      have ndE' : (e'.map Prod.fst ++ entityDeclNames rest).Nodup := by
        rw [← List.append_assoc] at hnd2
        exact (permE.append_right (entityDeclNames rest)).nodup hnd2
      have ndA' : (a.map Prod.fst ++ actionDeclUids rest).Nodup := by
        rw [← List.append_assoc] at hnd3
        exact (permA.append_right (actionDeclUids rest)).nodup hnd3
      obtain ⟨m, haux⟩ :=
        (@ih ⟨t, e', a⟩ (permT.nodup hndT) (permE.nodup hndE)
          (permA.nodup hndA)).2 ⟨ndT', ndE', ndA'⟩
      refine ⟨m, ?_⟩
      rw [mergeFragmentsAux, hns]
      simpa [Bind.bind, Except.bind] using haux

theorem mergeFragmentsAux_error {defs : List ValidatorNamespaceDef}
    {acc : MergedFragments} {e : SchemaError}
    (h : mergeFragmentsAux defs acc = .error e) :
    (∃ k, e = .duplicateCommonType k ∧
      2 ≤ (acc.typeDefs.map Prod.fst ++ typeDefNames defs).count k) ∨
    (∃ k, e = .duplicateEntityType k ∧
      2 ≤ (acc.entityTypeFragments.map Prod.fst ++ entityDeclNames defs).count k) ∨
    (∃ u, e = .duplicateAction u.str ∧
      2 ≤ (acc.actionFragments.map Prod.fst ++ actionDeclUids defs).count u) := by
  induction defs generalizing acc with
  | nil =>
    rw [mergeFragmentsAux] at h
    cases h
  | cons ns rest ih =>
    rw [mergeFragmentsAux] at h
    cases hns : mergeNamespaceDef acc ns with
    | error e' =>
      rw [hns] at h
      simp only [Bind.bind, Except.bind] at h
      cases h
      rcases mergeNamespaceDef_error_elim hns with herr | herr | herr
      · obtain ⟨k, hk, hcount⟩ := insertAll_error_count herr
        refine Or.inl ⟨k, hk, ?_⟩
        rw [typeDefNames_cons, ← List.append_assoc]
        rw [List.count_append] at hcount ⊢
        rw [List.count_append]
        omega
      · obtain ⟨k, hk, hcount⟩ := insertAll_error_count herr
        refine Or.inr (Or.inl ⟨k, hk, ?_⟩)
        rw [entityDeclNames_cons, ← List.append_assoc]
        rw [List.count_append] at hcount ⊢
        rw [List.count_append]
        omega
      · obtain ⟨u, hu, hcount⟩ := insertAll_error_count herr
        refine Or.inr (Or.inr ⟨u, hu, ?_⟩)
        rw [actionDeclUids_cons, ← List.append_assoc]
        rw [List.count_append] at hcount ⊢
        rw [List.count_append]
        omega
    | ok acc' =>
      rw [hns] at h
      simp only [Bind.bind, Except.bind] at h
      obtain ⟨hTk, hEk, hAk⟩ := mergeNamespaceDef_ok_elim hns
      have permT : (acc'.typeDefs.map Prod.fst).Perm
          (acc.typeDefs.map Prod.fst ++ ns.typeDefs.map Prod.fst) := by
        rw [insertAll_ok_keys hTk]
        exact ((List.reverse_perm _).append_right _).trans List.perm_append_comm
      have permE : (acc'.entityTypeFragments.map Prod.fst).Perm
          (acc.entityTypeFragments.map Prod.fst ++ ns.entityTypes.map Prod.fst) := by
        rw [insertAll_ok_keys hEk]
        exact ((List.reverse_perm _).append_right _).trans List.perm_append_comm
      have permA : (acc'.actionFragments.map Prod.fst).Perm
          (acc.actionFragments.map Prod.fst ++ ns.actions.map Prod.fst) := by
        rw [insertAll_ok_keys hAk]
        exact ((List.reverse_perm _).append_right _).trans List.perm_append_comm
      rcases ih h with ⟨k, hk, hcount⟩ | ⟨k, hk, hcount⟩ | ⟨u, hu, hcount⟩
      · refine Or.inl ⟨k, hk, ?_⟩
        rw [typeDefNames_cons, ← List.append_assoc]
        rw [← (permT.append_right (typeDefNames rest)).count_eq]
        exact hcount
      · refine Or.inr (Or.inl ⟨k, hk, ?_⟩)
        rw [entityDeclNames_cons, ← List.append_assoc]
        rw [← (permE.append_right (entityDeclNames rest)).count_eq]
        exact hcount
      · refine Or.inr (Or.inr ⟨u, hu, ?_⟩)
        rw [actionDeclUids_cons, ← List.append_assoc]
        rw [← (permA.append_right (actionDeclUids rest)).count_eq]
        exact hcount

theorem mergeFragments_ok_iff {frags : List ValidatorSchemaFragment} :
    (∃ m, mergeFragments frags = .ok m) ↔
      (typeDefNames frags.flatten).Nodup ∧ (entityDeclNames frags.flatten).Nodup ∧
      (actionDeclUids frags.flatten).Nodup := by
  rw [mergeFragments]
  simpa using
    @mergeFragmentsAux_ok_iff frags.flatten ⟨[], [], []⟩ (by simp) (by simp) (by simp)

theorem mergeFragments_error {frags : List ValidatorSchemaFragment} {e : SchemaError}
    (h : mergeFragments frags = .error e) :
    (∃ k, e = .duplicateCommonType k ∧ 2 ≤ (typeDefNames frags.flatten).count k) ∨
    (∃ k, e = .duplicateEntityType k ∧ 2 ≤ (entityDeclNames frags.flatten).count k) ∨
    (∃ u, e = .duplicateAction u.str ∧ 2 ≤ (actionDeclUids frags.flatten).count u) := by
  rw [mergeFragments] at h
  simpa using mergeFragmentsAux_error h

end MergeAuxLemmas

/-! ## Lemmas: decomposition of `fromSchemaFragments` -/

theorem fromSchemaFragments_ok_elim {frags : List ValidatorSchemaFragment}
    {s : ValidatorSchema} (h : fromSchemaFragments frags = .ok s) :
    ∃ merged ets₀ acs₀ acs₁,
      mergeFragments frags = .ok merged ∧
      buildEntityTypes merged.typeDefs
        (childrenMapOf (fun f => f.parents) merged.entityTypeFragments)
        merged.entityTypeFragments = .ok ets₀ ∧
      buildActionIds merged.typeDefs
        (childrenMapOf (fun f => f.parents) merged.actionFragments)
        merged.actionFragments = .ok acs₀ ∧
      tcActionIds acs₀ = .ok acs₁ ∧
      checkForUndeclared (tcEntityTypes ets₀)
        (leftoverKeys (childrenMapOf (fun f => f.parents) merged.entityTypeFragments)
          merged.entityTypeFragments)
        acs₁
        (leftoverKeys (childrenMapOf (fun f => f.parents) merged.actionFragments)
          merged.actionFragments) = .ok () ∧
      s = ⟨tcEntityTypes ets₀, acs₁⟩ := by
  rw [fromSchemaFragments] at h
  cases hm : mergeFragments frags with
  | error e =>
    rw [hm] at h
    simp [Bind.bind, Except.bind] at h
  | ok merged =>
    rw [hm] at h
    simp only [Bind.bind, Except.bind] at h
    cases hbe : buildEntityTypes merged.typeDefs
        (childrenMapOf (fun f => f.parents) merged.entityTypeFragments)
        merged.entityTypeFragments with
    | error e =>
      rw [hbe] at h
      simp at h
    | ok ets₀ =>
      rw [hbe] at h
      simp only [] at h
      cases hba : buildActionIds merged.typeDefs
          (childrenMapOf (fun f => f.parents) merged.actionFragments)
          merged.actionFragments with
      | error e =>
        rw [hba] at h
        simp at h
      | ok acs₀ =>
        rw [hba] at h
        simp only [] at h
        cases htc : tcActionIds acs₀ with
        | error e =>
          rw [htc] at h
          simp at h
        | ok acs₁ =>
          rw [htc] at h
          simp only [] at h
          cases hchk : checkForUndeclared (tcEntityTypes ets₀)
              (leftoverKeys (childrenMapOf (fun f => f.parents) merged.entityTypeFragments)
                merged.entityTypeFragments)
              acs₁
              (leftoverKeys (childrenMapOf (fun f => f.parents) merged.actionFragments)
                merged.actionFragments) with
          | error e =>
            rw [hchk] at h
            simp [Pure.pure, Except.pure] at h
          | ok u =>
            obtain ⟨⟩ := u
            rw [hchk] at h
            simp only [Pure.pure, Except.pure] at h
            cases h
            exact ⟨merged, ets₀, acs₀, acs₁, rfl, hbe, hba, htc, hchk, rfl⟩

/-! ## Claims -/

/-- C10: `from_schema_fragments` applied to an empty collection of fragments
succeeds and returns a schema whose `entity_types` and `action_ids` maps are
both empty, equal to the schema produced by `ValidatorSchema::empty()`. -/
theorem C10_empty_fragments :
    fromSchemaFragments [] = .ok ValidatorSchema.empty ∧
    ValidatorSchema.empty.entityTypes = [] ∧ ValidatorSchema.empty.actionIds = [] :=
  ⟨rfl, rfl, rfl⟩

/-- C7: during the undeclared-reference check, if both the undeclared
entity-type set and the undeclared action set are non-empty, the check fails
with `UndeclaredEntityTypes` (the entity-type error takes priority);
`UndeclaredActions` is returned only when the undeclared entity-type set is
empty. -/
theorem C7_undeclared_priority (ets : List (Name × ValidatorEntityType))
    (pE : Finset Name) (acs : List (EntityUID × ValidatorActionId))
    (pA : Finset EntityUID) :
    (undeclaredEntitySet ets pE acs ≠ ∅ → undeclaredActionSet pA ≠ ∅ →
      checkForUndeclared ets pE acs pA =
        .error (.undeclaredEntityTypes (undeclaredEntitySet ets pE acs))) ∧
    (∀ S, checkForUndeclared ets pE acs pA = .error (.undeclaredActions S) →
      undeclaredEntitySet ets pE acs = ∅ ∧ S = undeclaredActionSet pA) := by
  constructor
  · intro hE _
    exact checkForUndeclared_error_entity hE
  · intro S h
    rcases checkForUndeclared_error_elim h with ⟨he, _⟩ | ⟨he, hemp, _⟩
    · exact SchemaError.noConfusion he
    · injection he with hS
      exact ⟨hemp, hS⟩

/-- C7 witness: with undeclared parent entity `X` and undeclared parent
action `Action::a`, both sets are non-empty and the entity-type error is
returned. -/
theorem C7_undeclared_priority_witness :
    checkForUndeclared [] {"X"} [] {exActionUID "a"} =
      .error (.undeclaredEntityTypes (undeclaredEntitySet [] {"X"} [])) :=
  (C7_undeclared_priority [] {"X"} [] {exActionUID "a"}).1
    (Finset.ne_empty_of_mem (by decide : "X" ∈ undeclaredEntitySet [] {"X"} []))
    (Finset.ne_empty_of_mem
      (by decide : (exActionUID "a").str ∈ undeclaredActionSet {exActionUID "a"}))

/-- C8: for every constructed schema and declared entity type `T`, the
description's allowed-parent-types set contains exactly those concrete
entity types `U` declared in the schema such that `T` is a member of `U`'s
descendants set. -/
theorem C8_allowed_parent_types (s : ValidatorSchema) (T : Name)
    (d : EntityTypeDescription)
    (h : EntityTypeDescription.new s T = Option.some d) :
    ∀ x : EntityType, x ∈ d.allowedParents ↔
      ∃ U vU, x = EntityType.concrete U ∧ (U, vU) ∈ s.entityTypes ∧
        T ∈ vU.descendants := by
  rw [EntityTypeDescription.new] at h
  cases hfind : assocFind s.entityTypes T with
  | none =>
    rw [hfind] at h
    cases h
  | some vt =>
    rw [hfind] at h
    simp only [Option.map_some'] at h
    cases h
    intro x
    rw [EntityTypeDescription.allowedParents]
    simp only []
    rw [mem_foldl_cond_insert]
    constructor
    · rintro (h | ⟨kv, hkv, hdesc, hx⟩)
      · cases h
      · exact ⟨kv.1, kv.2, hx.symm, hkv, hdesc⟩
    · rintro ⟨U, vU, hx, hmem, hdesc⟩
      exact Or.inr ⟨(U, vU), hmem, hdesc, hx.symm⟩

/-- C8 witness: in `exDescSchema`, the description of `B` allows exactly the
parent type `A`, which indeed has `B` among its descendants. -/
theorem C8_allowed_parent_types_witness :
    ∃ U vU, EntityType.concrete "A" = EntityType.concrete U ∧
      (U, vU) ∈ exDescSchema.entityTypes ∧ "B" ∈ vU.descendants :=
  ((C8_allowed_parent_types exDescSchema "B" exDesc rfl)
    (EntityType.concrete "A")).1 (by decide)

/-- C6: action-entity materialization produces exactly one `Entity` per
action in the schema, whose uid is the action's `EntityUID`, whose
attributes are the action's literal attribute values, and whose ancestors
set is the inverse of the stored descendants relation: `b` is an ancestor of
`a`'s entity iff `a ∈ descendants(b)`. -/
theorem C6_action_entities (s : ValidatorSchema)
    (hnd : (s.actionIds.map Prod.fst).Nodup) :
    ((actionEntitiesIter s).map Entity.uid = s.actionIds.map Prod.fst) ∧
    (∀ a va, assocFind s.actionIds a = Option.some va →
      ∃ e ∈ actionEntitiesIter s, e.uid = a ∧ e.attrs = va.attributes ∧
        ∀ b, b ∈ e.ancestors ↔
          ∃ vb, assocFind s.actionIds b = Option.some vb ∧ a ∈ vb.descendants) := by
  constructor
  · simp [actionEntitiesIter]
  · intro a va hfind
    have hmem := assocFind_mem hfind
    refine ⟨⟨a, va.attributes, actionAncestors s.actionIds a⟩,
      List.mem_map.2 ⟨(a, va), hmem, rfl⟩, rfl, rfl, ?_⟩
    intro b
    rw [actionAncestors, mem_foldl_cond_insert]
    constructor
    · rintro (h | ⟨kv, hkv, hdesc, hb⟩)
      · cases h
      · subst hb
        exact ⟨kv.2, assocFind_of_mem_nodup hnd (by exact hkv), hdesc⟩
    · rintro ⟨vb, hvb, hdesc⟩
      exact Or.inr ⟨(b, vb), assocFind_mem hvb, hdesc, rfl⟩

/-- C6 witness: in `exActSchema` (keys distinct), the entity materialized
for action `a` has `b` among its ancestors because `a ∈ descendants(b)`. -/
theorem C6_action_entities_witness :
    ∃ e ∈ actionEntitiesIter exActSchema, e.uid = exActionUID "a" ∧
      e.attrs = [] ∧
      ∀ b, b ∈ e.ancestors ↔
        ∃ vb, assocFind exActSchema.actionIds b = Option.some vb ∧
          exActionUID "a" ∈ vb.descendants :=
  (C6_action_entities exActSchema (by decide)).2 (exActionUID "a")
    ⟨exActionUID "a", ⟨[], []⟩, ∅, .nil, [], []⟩ rfl

/-- C9 counterexample: `ActionParentIsNotAction` is one of the
conformance-kind errors enumerated by the claim, yet it carries no context
breadcrumb (it carries the offending action uid and parent instead). -/
theorem C9_counterexample :
    isConformanceKind (.actionParentIsNotAction ⟨.concrete "Action", "a"⟩
      ⟨.concrete "User", "u"⟩) = true ∧
    ctxOf (.actionParentIsNotAction ⟨.concrete "Action", "a"⟩
      ⟨.concrete "User", "u"⟩) = Option.none :=
  ⟨rfl, rfl⟩

/-- C9 (amended): every conformance-kind JSON deserialization error except
the non-entity action parent carries a context breadcrumb; the non-entity
action parent error carries the offending action uid and the invalid parent
instead; and the breadcrumb type has exactly the five cases: attribute of an
entity, parents of an entity, an entity's uid field, the context, and a
policy id. -/
theorem C9_conformance_context :
    (∀ e : JsonDeserializationError, isConformanceKind e = true →
      (∀ u p, e ≠ .actionParentIsNotAction u p) → (ctxOf e).isSome = true) ∧
    (∀ c : JsonDeserializationErrorContext,
      (∃ u a, c = .entityAttribute u a) ∨ (∃ u, c = .entityParents u) ∨
      c = .entityUid ∨ c = .context ∨ (∃ i, c = .policy i)) := by
  constructor
  · intro e hconf hne
    cases e with
    | serde err => simp [isConformanceKind] at hconf
    | parseEscape k v es => simp [isConformanceKind] at hconf
    | restrictedExpressionError err => simp [isConformanceKind] at hconf
    | expectedLiteralEntityRef ctx g => rfl
    | expectedExtnValue ctx g => rfl
    | expectedContextToBeRecord g => simp [isConformanceKind] at hconf
    | actionParentIsNotAction u p => exact absurd rfl (hne u p)
    | missingImpliedConstructor ctx r a => rfl
    | duplicateKeyInRecordLiteral ctx k => rfl
    | entitySchemaConformance err => simp [isConformanceKind] at hconf
    | unexpectedRecordAttr ctx r => rfl
    | missingRequiredRecordAttr ctx r => rfl
    | typeMismatch ctx x y => rfl
    | heterogeneousSet ctx err => rfl
    | extensionFunctionLookup ctx err => rfl
    | exprTag ctx => rfl
  · intro c
    cases c with
    | entityAttribute u a => exact Or.inl ⟨u, a, rfl⟩
    | entityParents u => exact Or.inr (Or.inl ⟨u, rfl⟩)
    | entityUid => exact Or.inr (Or.inr (Or.inl rfl))
    | context => exact Or.inr (Or.inr (Or.inr (Or.inl rfl)))
    | policy i => exact Or.inr (Or.inr (Or.inr (Or.inr ⟨i, rfl⟩)))

/-- C9 witness: the legacy `__expr` escape error inside the `context`
breadcrumb carries a context. -/
theorem C9_conformance_context_witness :
    (ctxOf (.exprTag .context)).isSome = true :=
  C9_conformance_context.1 (.exprTag .context) rfl
    (fun u p h => JsonDeserializationError.noConfusion h)

/-- C5: merging fragments fails with a duplicate-declaration error exactly
when the same fully-qualified common-type name, entity-type name, or action
`EntityUID` is declared a second time across the whole set of fragments
being merged; the error identifies the kind and the duplicated name; and two
fragments declaring an action named `Baz` in the namespaces `Foo::Bar` and
`Bar::Foo` construct successfully as distinct, independently addressable
actions. -/
theorem C5_duplicate_declarations :
    (∀ frags : List ValidatorSchemaFragment,
      (∃ m, mergeFragments frags = .ok m) ↔
        (typeDefNames frags.flatten).Nodup ∧
        (entityDeclNames frags.flatten).Nodup ∧
        (actionDeclUids frags.flatten).Nodup) ∧
    (∀ (frags : List ValidatorSchemaFragment) (e : SchemaError),
      mergeFragments frags = .error e →
      (∃ k, e = .duplicateCommonType k ∧ 2 ≤ (typeDefNames frags.flatten).count k) ∨
      (∃ k, e = .duplicateEntityType k ∧ 2 ≤ (entityDeclNames frags.flatten).count k) ∨
      (∃ u, e = .duplicateAction u.str ∧ 2 ≤ (actionDeclUids frags.flatten).count u)) ∧
    ((fromSchemaFragments exCrossNamespaceFrags).isOk = true ∧
      (okOr (fromSchemaFragments exCrossNamespaceFrags)).actionIds.map Prod.fst =
        [⟨.concrete "Bar::Foo::Action", "Baz"⟩, ⟨.concrete "Foo::Bar::Action", "Baz"⟩]) :=
  ⟨fun _ => mergeFragments_ok_iff,
   fun _ _ h => mergeFragments_error h,
   by decide, by decide⟩

/-- C5 witness: `exDupCycleFrags` declares the entity type `E` twice, and
merging reports `DuplicateEntityType` naming a twice-declared name. -/
theorem C5_duplicate_declarations_witness :
    (∃ k, SchemaError.duplicateEntityType "E" = .duplicateCommonType k ∧
      2 ≤ (typeDefNames exDupCycleFrags.flatten).count k) ∨
    (∃ k, SchemaError.duplicateEntityType "E" = .duplicateEntityType k ∧
      2 ≤ (entityDeclNames exDupCycleFrags.flatten).count k) ∨
    (∃ u, SchemaError.duplicateEntityType "E" = .duplicateAction u.str ∧
      2 ≤ (actionDeclUids exDupCycleFrags.flatten).count u) :=
  C5_duplicate_declarations.2.1 exDupCycleFrags (.duplicateEntityType "E") rfl

/-- C3: when the undeclared-reference check fails with
`UndeclaredEntityTypes S`, the single reported set `S` simultaneously
contains the undeclared names from every scanned source — every dangling
memberOf parent passed in, every undeclared entity reference nested in any
entity type's attribute types or any action's context type, and every
undeclared concrete appliesTo principal or resource type; in particular a
schema referencing three distinct undeclared entity-type names in a
memberOf, an attribute type, and an appliesTo reports all three in a single
error. -/
theorem C3_undeclared_accumulated :
    (∀ (ets : List (Name × ValidatorEntityType)) (pE : Finset Name)
        (acs : List (EntityUID × ValidatorActionId)) (pA : Finset EntityUID)
        (S : Finset String),
      checkForUndeclared ets pE acs pA = .error (.undeclaredEntityTypes S) →
        (∀ p ∈ pE, p ∈ S) ∧
        (∀ kv ∈ ets, ∀ n, n ∈ lubNamesAttrs
          (ValidatorEntityType.attributes kv.2) →
          assocFind ets n = Option.none → n ∈ S) ∧
        (∀ kv ∈ acs, ∀ n, n ∈ lubNamesAttrs (ValidatorActionId.context kv.2) →
          assocFind ets n = Option.none → n ∈ S) ∧
        (∀ kv ∈ acs, ∀ n,
          (EntityType.concrete n ∈ kv.2.appliesTo.principalApplySpec ∨
           EntityType.concrete n ∈ kv.2.appliesTo.resourceApplySpec) →
          assocFind ets n = Option.none → n ∈ S)) ∧
    (isUndeclaredETypes (fromSchemaFragments exThreeUndeclaredFrags) = true ∧
      "P" ∈ undeclaredSetOf (fromSchemaFragments exThreeUndeclaredFrags) ∧
      "Q" ∈ undeclaredSetOf (fromSchemaFragments exThreeUndeclaredFrags) ∧
      "R" ∈ undeclaredSetOf (fromSchemaFragments exThreeUndeclaredFrags) ∧
      (undeclaredSetOf (fromSchemaFragments exThreeUndeclaredFrags)).card = 3) := by
  constructor
  · intro ets pE acs pA S h
    rcases checkForUndeclared_error_elim h with ⟨he, _⟩ | ⟨he, _, _⟩
    · injection he with hS
      subst hS
      refine ⟨?_, ?_, ?_, ?_⟩
      · intro p hp
        exact subset_undeclaredEntitySet hp
      · intro kv hkv n hn hnone
        exact mem_undeclaredEntitySet_attr hkv hn hnone
      · intro kv hkv n hn hnone
        exact mem_undeclaredEntitySet_action hkv (Or.inl hn) hnone
      · intro kv hkv n hn hnone
        rcases hn with hn | hn
        · exact mem_undeclaredEntitySet_action hkv (Or.inr (Or.inl hn)) hnone
        · exact mem_undeclaredEntitySet_action hkv (Or.inr (Or.inr hn)) hnone
    · exact SchemaError.noConfusion he
  · exact ⟨by decide, by decide, by decide, by decide, by decide⟩

/-- C3 witness: with dangling parent set containing `X`, the check fails
with an `UndeclaredEntityTypes` set containing `X`. -/
theorem C3_undeclared_accumulated_witness :
    "X" ∈ undeclaredEntitySet [] {"X"} [] :=
  ((C3_undeclared_accumulated.1 [] {"X"} [] ∅ (undeclaredEntitySet [] {"X"} [])
    rfl).1) "X" (by decide)

/-- C4 counterexample: `exDupCycleFrags` declares a self-referential action
(a cycle in the declared action membership graph), yet construction fails
with `DuplicateEntityType "E"`, not `CycleInActionHierarchy`: the merge
stage rejects the duplicate declaration before the cycle check runs. -/
theorem C4_counterexample :
    (∃ nsd ∈ exDupCycleFrags.flatten, ∃ kv ∈ nsd.actions, kv.1 ∈ kv.2.parents) ∧
    errOf (fromSchemaFragments exDupCycleFrags) =
      Option.some (.duplicateEntityType "E") := by
  constructor
  · exact ⟨⟨[], [("E", exEntityFrag [])],
      [(exActionUID "a", exActionFrag [exActionUID "a"])]⟩, by decide, by decide⟩
  · decide

/-- C4 (amended): provided merging and the entity/action construction
stages succeed, construction fails with `CycleInActionHierarchy` whenever
the declared action membership graph contains a cycle — a self-loop or any
longer cycle, undisturbed by unrelated extra actions — while no cycle check
is performed for the entity-type hierarchy: an entity-type membership cycle
does not by itself cause construction to fail. -/
theorem C4_action_cycle :
    (∀ (frags : List ValidatorSchemaFragment) (m : MergedFragments)
        (ets₀ : List (Name × ValidatorEntityType))
        (acs₀ : List (EntityUID × ValidatorActionId)),
      mergeFragments frags = .ok m →
      buildEntityTypes m.typeDefs
        (childrenMapOf (fun f => f.parents) m.entityTypeFragments)
        m.entityTypeFragments = .ok ets₀ →
      buildActionIds m.typeDefs
        (childrenMapOf (fun f => f.parents) m.actionFragments)
        m.actionFragments = .ok acs₀ →
      (∃ u, Relation.TransGen (fun p c =>
        (assocFind m.actionFragments p).isSome = true ∧
        ∃ f, assocFind m.actionFragments c = Option.some f ∧ p ∈ f.parents) u u) →
      fromSchemaFragments frags = .error .cycleInActionHierarchy) ∧
    (fromSchemaFragments exEntityCycleFrags).isOk = true := by
  constructor
  · intro frags m ets₀ acs₀ hm hbe hba hcyc
    obtain ⟨u, hu⟩ := hcyc
    -- translate declared-graph edges into direct-children edges of `acs₀`
    have hedge : ∀ p c, ((assocFind m.actionFragments p).isSome = true ∧
        ∃ f, assocFind m.actionFragments c = Option.some f ∧ p ∈ f.parents) →
        c ∈ childrenOfMap (fun v => ValidatorActionId.descendants v) acs₀ p := by
      rintro p c ⟨hp, f, hc, hpf⟩
      obtain ⟨fp, hfp⟩ := Option.isSome_iff_exists.1 hp
      have hba' := hba
      rw [buildActionIds] at hba'
      obtain ⟨ty, attrs, _, _, hfound⟩ := buildResolved_find hba' hfp
      refine mem_childrenOfMap.2 ⟨(p, _), assocFind_mem hfound, rfl, ?_⟩
      exact mem_childrenMapOf.2 ⟨(c, f), assocFind_mem hc, rfl, hpf⟩
    have htg : Relation.TransGen (fun a b =>
        b ∈ childrenOfMap (fun v => ValidatorActionId.descendants v) acs₀ a) u u :=
      Relation.TransGen.mono hedge hu
    have hself : u ∈ descOfMap (fun v => ValidatorActionId.descendants v) acs₀ u :=
      mem_descOfMap_iff.2 htg
    -- `u` is itself declared: it is the target of the last cycle edge
    have hu_decl : ∃ fu, assocFind m.actionFragments u = Option.some fu := by
      cases hu with
      | single h => exact ⟨_, h.2.choose_spec.1⟩
      | tail _ h => exact ⟨_, h.2.choose_spec.1⟩
    obtain ⟨fu, hfu⟩ := hu_decl
    have hba' := hba
    rw [buildActionIds] at hba'
    obtain ⟨ty, attrs, _, _, hfound⟩ := buildResolved_find hba' hfu
    have hfindtc : assocFind (tcDescMap (fun v => v.descendants)
        (fun v d => { v with descendants := d }) acs₀) u =
        Option.some { (⟨u, fu.appliesTo,
          assocFindD (childrenMapOf (fun f => f.parents) m.actionFragments) u ∅,
          attrs, fu.attributeTypes, fu.attributes⟩ : ValidatorActionId) with
            descendants := descOfMap (fun v => v.descendants) acs₀ u } := by
      rw [assocFind_tcDescMap, hfound]
      rfl
    have htcerr : tcActionIds acs₀ = .error .cycleInActionHierarchy := by
      refine tcActionIds_error_of_cycle (assocFind_mem hfindtc) ?_
      exact hself
    rw [fromSchemaFragments, hm]
    simp only [Bind.bind, Except.bind]
    rw [hbe]
    simp only []
    rw [hba]
    simp only []
    rw [htcerr]
  · decide

/-- C4 witness: a single self-referential action fails with the
hierarchy-cycle error. -/
theorem C4_action_cycle_witness :
    fromSchemaFragments exSelfLoopFrags = .error .cycleInActionHierarchy :=
  C4_action_cycle.1 exSelfLoopFrags exSelfLoopMerged []
    [(exActionUID "a", ⟨exActionUID "a", ⟨[], []⟩, {exActionUID "a"}, .nil, [], []⟩)]
    rfl rfl rfl
    ⟨exActionUID "a", Relation.TransGen.single
      ⟨rfl, exActionFrag [exActionUID "a"], rfl, by decide⟩⟩

/-- C1: for every set of schema fragments from which `from_schema_fragments`
succeeds, and for all declared nodes `A`, `B`, `C` — entity types or actions
— where `A` lists `B` as a parent and `B` lists `C` as a parent, the
resulting schema satisfies `A ∈ descendants(B)` and `A ∈ descendants(C)`:
descendants contain every declared node transitively reachable by following
member-of edges downward, not just direct children. -/
theorem C1_descendants_transitive (frags : List ValidatorSchemaFragment)
    (m : MergedFragments) (s : ValidatorSchema)
    (hm : mergeFragments frags = .ok m)
    (hok : fromSchemaFragments frags = .ok s) :
    (∀ A B C fA fB fC,
      assocFind m.entityTypeFragments A = Option.some fA →
      assocFind m.entityTypeFragments B = Option.some fB →
      assocFind m.entityTypeFragments C = Option.some fC →
      B ∈ fA.parents → C ∈ fB.parents →
      ∃ vB vC, assocFind s.entityTypes B = Option.some vB ∧
        assocFind s.entityTypes C = Option.some vC ∧
        A ∈ vB.descendants ∧ A ∈ vC.descendants) ∧
    (∀ A B C fA fB fC,
      assocFind m.actionFragments A = Option.some fA →
      assocFind m.actionFragments B = Option.some fB →
      assocFind m.actionFragments C = Option.some fC →
      B ∈ fA.parents → C ∈ fB.parents →
      ∃ vB vC, assocFind s.actionIds B = Option.some vB ∧
        assocFind s.actionIds C = Option.some vC ∧
        A ∈ vB.descendants ∧ A ∈ vC.descendants) := by
  obtain ⟨m', ets₀, acs₀, acs₁, hm', hbe, hba, htc, hchk, hs⟩ :=
    fromSchemaFragments_ok_elim hok
  rw [hm] at hm'
  injection hm' with hmm
  subst hmm
  subst hs
  constructor
  · intro A B C fA fB fC hA hB hC hAB hBC
    rw [buildEntityTypes] at hbe
    obtain ⟨tyB, attrsB, _, _, hfB⟩ := buildResolved_find hbe hB
    obtain ⟨tyC, attrsC, _, _, hfC⟩ := buildResolved_find hbe hC
    have hchildB : A ∈ assocFindD
        (childrenMapOf (fun f => f.parents) m.entityTypeFragments) B ∅ :=
      mem_childrenMapOf.2 ⟨(A, fA), assocFind_mem hA, rfl, hAB⟩
    have hchildC : B ∈ assocFindD
        (childrenMapOf (fun f => f.parents) m.entityTypeFragments) C ∅ :=
      mem_childrenMapOf.2 ⟨(B, fB), assocFind_mem hB, rfl, hBC⟩
    have hedgeBA : A ∈ childrenOfMap
        (fun v => ValidatorEntityType.descendants v) ets₀ B :=
      mem_childrenOfMap.2 ⟨(B, _), assocFind_mem hfB, rfl, hchildB⟩
    have hedgeCB : B ∈ childrenOfMap
        (fun v => ValidatorEntityType.descendants v) ets₀ C :=
      mem_childrenOfMap.2 ⟨(C, _), assocFind_mem hfC, rfl, hchildC⟩
    have h1 : assocFind (tcEntityTypes ets₀) B = Option.some
        ⟨B, descOfMap (fun v => ValidatorEntityType.descendants v) ets₀ B, attrsB⟩ := by
      rw [tcEntityTypes, assocFind_tcDescMap, hfB]
      rfl
    have h2 : assocFind (tcEntityTypes ets₀) C = Option.some
        ⟨C, descOfMap (fun v => ValidatorEntityType.descendants v) ets₀ C, attrsC⟩ := by
      rw [tcEntityTypes, assocFind_tcDescMap, hfC]
      rfl
    exact ⟨_, _, h1, h2,
      mem_descOfMap_iff.2 (Relation.TransGen.single hedgeBA),
      mem_descOfMap_iff.2
        (Relation.TransGen.head hedgeCB (Relation.TransGen.single hedgeBA))⟩
  · intro A B C fA fB fC hA hB hC hAB hBC
    rw [buildActionIds] at hba
    obtain ⟨tyB, attrsB, _, _, hfB⟩ := buildResolved_find hba hB
    obtain ⟨tyC, attrsC, _, _, hfC⟩ := buildResolved_find hba hC
    have hchildB : A ∈ assocFindD
        (childrenMapOf (fun f => f.parents) m.actionFragments) B ∅ :=
      mem_childrenMapOf.2 ⟨(A, fA), assocFind_mem hA, rfl, hAB⟩
    have hchildC : B ∈ assocFindD
        (childrenMapOf (fun f => f.parents) m.actionFragments) C ∅ :=
      mem_childrenMapOf.2 ⟨(B, fB), assocFind_mem hB, rfl, hBC⟩
    have hedgeBA : A ∈ childrenOfMap
        (fun v => ValidatorActionId.descendants v) acs₀ B :=
      mem_childrenOfMap.2 ⟨(B, _), assocFind_mem hfB, rfl, hchildB⟩
    have hedgeCB : B ∈ childrenOfMap
        (fun v => ValidatorActionId.descendants v) acs₀ C :=
      mem_childrenOfMap.2 ⟨(C, _), assocFind_mem hfC, rfl, hchildC⟩
    obtain ⟨hacs₁, hnocycle⟩ := tcActionIds_ok_elim htc
    subst hacs₁
    have h1 : assocFind (tcDescMap (fun v => ValidatorActionId.descendants v)
        (fun v d => { v with descendants := d }) acs₀) B = Option.some
        ⟨B, fB.appliesTo,
          descOfMap (fun v => ValidatorActionId.descendants v) acs₀ B,
          attrsB, fB.attributeTypes, fB.attributes⟩ := by
      rw [assocFind_tcDescMap, hfB]
      rfl
    have h2 : assocFind (tcDescMap (fun v => ValidatorActionId.descendants v)
        (fun v d => { v with descendants := d }) acs₀) C = Option.some
        ⟨C, fC.appliesTo,
          descOfMap (fun v => ValidatorActionId.descendants v) acs₀ C,
          attrsC, fC.attributeTypes, fC.attributes⟩ := by
      rw [assocFind_tcDescMap, hfC]
      rfl
    exact ⟨_, _, h1, h2,
      mem_descOfMap_iff.2 (Relation.TransGen.single hedgeBA),
      mem_descOfMap_iff.2
        (Relation.TransGen.head hedgeCB (Relation.TransGen.single hedgeBA))⟩

/-- C1 witness: in the chain schema, `A` is a descendant of both `B` and
`C`, and action `a` is a descendant of both `b` and `c`. -/
theorem C1_descendants_transitive_witness :
    (∃ vB vC,
      assocFind (okOr (fromSchemaFragments exChainFrags)).entityTypes "B" =
        Option.some vB ∧
      assocFind (okOr (fromSchemaFragments exChainFrags)).entityTypes "C" =
        Option.some vC ∧
      "A" ∈ vB.descendants ∧ "A" ∈ vC.descendants) ∧
    (∃ vB vC,
      assocFind (okOr (fromSchemaFragments exChainFrags)).actionIds
        (exActionUID "b") = Option.some vB ∧
      assocFind (okOr (fromSchemaFragments exChainFrags)).actionIds
        (exActionUID "c") = Option.some vC ∧
      exActionUID "a" ∈ vB.descendants ∧ exActionUID "a" ∈ vC.descendants) :=
  ⟨(C1_descendants_transitive exChainFrags exChainMerged
      (okOr (fromSchemaFragments exChainFrags)) rfl rfl).1
      "A" "B" "C" (exEntityFrag ["B"]) (exEntityFrag ["C"]) (exEntityFrag [])
      rfl rfl rfl (by decide) (by decide),
   (C1_descendants_transitive exChainFrags exChainMerged
      (okOr (fromSchemaFragments exChainFrags)) rfl rfl).2
      (exActionUID "a") (exActionUID "b") (exActionUID "c")
      (exActionFrag [exActionUID "b"]) (exActionFrag [exActionUID "c"])
      (exActionFrag [])
      rfl rfl rfl (by decide) (by decide)⟩

/-- C2: every schema returned successfully by `from_schema_fragments`
satisfies: each name appearing in any entity type's descendants set or in
any `Entity` lub set inside any attribute or context type, and each
concrete entity type in any action's appliesTo principal/resource sets, is
a key of the entity-types map; each uid in any action's descendants set is
a key of the action-ids map; both descendants relations are transitively
closed; and the action descendants relation is acyclic. -/
theorem C2_schema_invariants (frags : List ValidatorSchemaFragment)
    (s : ValidatorSchema) (hok : fromSchemaFragments frags = .ok s) :
    (∀ n vt, assocFind s.entityTypes n = Option.some vt →
      ∀ d ∈ vt.descendants, d ∈ s.entityTypes.map Prod.fst) ∧
    (∀ n vt, assocFind s.entityTypes n = Option.some vt →
      ∀ x, x ∈ lubNamesAttrs vt.attributes → x ∈ s.entityTypes.map Prod.fst) ∧
    (∀ a va, assocFind s.actionIds a = Option.some va →
      (∀ x, x ∈ lubNamesAttrs va.context → x ∈ s.entityTypes.map Prod.fst) ∧
      (∀ x, (EntityType.concrete x ∈ va.appliesTo.principalApplySpec ∨
        EntityType.concrete x ∈ va.appliesTo.resourceApplySpec) →
        x ∈ s.entityTypes.map Prod.fst) ∧
      (∀ d ∈ va.descendants, d ∈ s.actionIds.map Prod.fst)) ∧
    (∀ n₁ n₂ n₃ v₁ v₂, assocFind s.entityTypes n₁ = Option.some v₁ →
      n₂ ∈ v₁.descendants → assocFind s.entityTypes n₂ = Option.some v₂ →
      n₃ ∈ v₂.descendants → n₃ ∈ v₁.descendants) ∧
    (∀ a₁ a₂ a₃ v₁ v₂, assocFind s.actionIds a₁ = Option.some v₁ →
      a₂ ∈ v₁.descendants → assocFind s.actionIds a₂ = Option.some v₂ →
      a₃ ∈ v₂.descendants → a₃ ∈ v₁.descendants) ∧
    (∀ a va, assocFind s.actionIds a = Option.some va → a ∉ va.descendants) := by
  obtain ⟨m, ets₀, acs₀, acs₁, hm, hbe, hba, htc, hchk, hs⟩ :=
    fromSchemaFragments_ok_elim hok
  obtain ⟨hacs₁, hnocycle⟩ := tcActionIds_ok_elim htc
  subst hacs₁
  have hE : s.entityTypes = tcEntityTypes ets₀ := by rw [hs]
  have hA : s.actionIds = tcDescMap (fun v => ValidatorActionId.descendants v)
      (fun v d => { v with descendants := d }) acs₀ := by rw [hs]
  rw [hE, hA]
  rw [buildEntityTypes] at hbe
  rw [buildActionIds] at hba
  have hkeysE : (tcEntityTypes ets₀).map Prod.fst = m.entityTypeFragments.map Prod.fst := by
    rw [tcEntityTypes, keys_tcDescMap, buildResolved_keys hbe]
  have hkeysA : (tcDescMap (fun v => ValidatorActionId.descendants v)
      (fun v d => { v with descendants := d }) acs₀).map Prod.fst =
      m.actionFragments.map Prod.fst := by
    rw [keys_tcDescMap, buildResolved_keys hba]
  have hempty := (checkForUndeclared_ok_elim hchk).1
  -- entity direct children are declared fragment keys
  have hchildE : ∀ kv : Name × ValidatorEntityType, kv ∈ ets₀ →
      ∀ d ∈ kv.2.descendants, d ∈ m.entityTypeFragments.map Prod.fst := by
    intro kv hkv d hd
    obtain ⟨aF, ty, attrs, hmemF, _, _, hval⟩ := buildResolved_mem hbe hkv
    rw [hval] at hd
    obtain ⟨kv', hkv', hkv'd, _⟩ := mem_childrenMapOf.1 hd
    exact List.mem_map.2 ⟨kv', hkv', hkv'd⟩
  have hchildA : ∀ kv : EntityUID × ValidatorActionId, kv ∈ acs₀ →
      ∀ d ∈ kv.2.descendants, d ∈ m.actionFragments.map Prod.fst := by
    intro kv hkv d hd
    obtain ⟨aF, ty, attrs, hmemF, _, _, hval⟩ := buildResolved_mem hba hkv
    rw [hval] at hd
    obtain ⟨kv', hkv', hkv'd, _⟩ := mem_childrenMapOf.1 hd
    exact List.mem_map.2 ⟨kv', hkv', hkv'd⟩
  refine ⟨?_, ?_, ?_, ?_, ?_, ?_⟩
  · -- (a) entity descendants are declared
    intro n vt hfind d hd
    rw [tcEntityTypes, assocFind_tcDescMap] at hfind
    obtain ⟨v₀, hv₀, hvt⟩ := Option.map_eq_some'.1 hfind
    rw [← hvt] at hd
    have htg := mem_descOfMap_iff.1 hd
    have hlast : ∃ b, d ∈ childrenOfMap
        (fun v => ValidatorEntityType.descendants v) ets₀ b := by
      cases htg with
      | single h => exact ⟨n, h⟩
      | tail _ h => exact ⟨_, h⟩
    obtain ⟨b, hb⟩ := hlast
    obtain ⟨kv, hkv, _, hdkv⟩ := mem_childrenOfMap.1 hb
    rw [hkeysE]
    exact hchildE kv hkv d hdkv
  · -- (b) lub names in entity attributes are declared
    intro n vt hfind x hx
    have hmem := assocFind_mem hfind
    by_contra hxk
    have hnone : assocFind (tcEntityTypes ets₀) x = Option.none :=
      assocFind_eq_none_iff.2 hxk
    have hxin := @mem_undeclaredEntitySet_attr (tcEntityTypes ets₀)
      (leftoverKeys (childrenMapOf (fun f => f.parents) m.entityTypeFragments)
        m.entityTypeFragments)
      (tcDescMap (fun v => ValidatorActionId.descendants v)
        (fun v d => { v with descendants := d }) acs₀)
      (n, vt) hmem x hx hnone
    rw [hempty] at hxin
    exact Finset.not_mem_empty x hxin
  · -- (c) action contexts, appliesTo, and action descendants
    intro a va hfind
    have hmem := assocFind_mem hfind
    refine ⟨?_, ?_, ?_⟩
    · intro x hx
      by_contra hxk
      have hnone : assocFind (tcEntityTypes ets₀) x = Option.none :=
        assocFind_eq_none_iff.2 hxk
      have hxin := @mem_undeclaredEntitySet_action (tcEntityTypes ets₀)
        (leftoverKeys (childrenMapOf (fun f => f.parents) m.entityTypeFragments)
          m.entityTypeFragments)
        (tcDescMap (fun v => ValidatorActionId.descendants v)
          (fun v d => { v with descendants := d }) acs₀)
        (a, va) hmem x (Or.inl hx) hnone
      rw [hempty] at hxin
      exact Finset.not_mem_empty x hxin
    · intro x hx
      by_contra hxk
      have hnone : assocFind (tcEntityTypes ets₀) x = Option.none :=
        assocFind_eq_none_iff.2 hxk
      have hsrc : x ∈ lubNamesAttrs (ValidatorActionId.context (a, va).2) ∨
          EntityType.concrete x ∈ (a, va).2.appliesTo.principalApplySpec ∨
          EntityType.concrete x ∈ (a, va).2.appliesTo.resourceApplySpec := by
        rcases hx with h | h
        · exact Or.inr (Or.inl h)
        · exact Or.inr (Or.inr h)
      have hxin := @mem_undeclaredEntitySet_action (tcEntityTypes ets₀)
        (leftoverKeys (childrenMapOf (fun f => f.parents) m.entityTypeFragments)
          m.entityTypeFragments)
        (tcDescMap (fun v => ValidatorActionId.descendants v)
          (fun v d => { v with descendants := d }) acs₀)
        (a, va) hmem x hsrc hnone
      rw [hempty] at hxin
      exact Finset.not_mem_empty x hxin
    · intro d hd
      rw [assocFind_tcDescMap] at hfind
      obtain ⟨v₀, hv₀, hva⟩ := Option.map_eq_some'.1 hfind
      rw [← hva] at hd
      have htg := mem_descOfMap_iff.1 hd
      have hlast : ∃ b, d ∈ childrenOfMap
          (fun v => ValidatorActionId.descendants v) acs₀ b := by
        cases htg with
        | single h => exact ⟨a, h⟩
        | tail _ h => exact ⟨_, h⟩
      obtain ⟨b, hb⟩ := hlast
      obtain ⟨kv, hkv, _, hdkv⟩ := mem_childrenOfMap.1 hb
      rw [hkeysA]
      exact hchildA kv hkv d hdkv
  · -- (e) entity transitivity
    intro n₁ n₂ n₃ v₁ v₂ h₁ hm₂ h₂ hm₃
    rw [tcEntityTypes, assocFind_tcDescMap] at h₁ h₂
    obtain ⟨w₁, hw₁, hv₁⟩ := Option.map_eq_some'.1 h₁
    obtain ⟨w₂, hw₂, hv₂⟩ := Option.map_eq_some'.1 h₂
    rw [← hv₁] at hm₂ ⊢
    rw [← hv₂] at hm₃
    exact mem_descOfMap_iff.2
      ((mem_descOfMap_iff.1 hm₂).trans (mem_descOfMap_iff.1 hm₃))
  · -- (e) action transitivity
    intro a₁ a₂ a₃ v₁ v₂ h₁ hm₂ h₂ hm₃
    rw [assocFind_tcDescMap] at h₁ h₂
    obtain ⟨w₁, hw₁, hv₁⟩ := Option.map_eq_some'.1 h₁
    obtain ⟨w₂, hw₂, hv₂⟩ := Option.map_eq_some'.1 h₂
    rw [← hv₁] at hm₂ ⊢
    rw [← hv₂] at hm₃
    exact mem_descOfMap_iff.2
      ((mem_descOfMap_iff.1 hm₂).trans (mem_descOfMap_iff.1 hm₃))
  · -- (f) acyclicity
    intro a va hfind
    exact hnocycle (a, va) (assocFind_mem hfind)

/-- C2 witness: in the chain schema, transitivity gives
`A ∈ descendants(C)` from `B ∈ descendants(C)` and `A ∈ descendants(B)`. -/
theorem C2_schema_invariants_witness :
    "A" ∈ (entityTypeOf (okOr (fromSchemaFragments exChainFrags)) "C").descendants :=
  (C2_schema_invariants exChainFrags (okOr (fromSchemaFragments exChainFrags))
      rfl).2.2.2.1 "C" "B" "A"
    (entityTypeOf (okOr (fromSchemaFragments exChainFrags)) "C")
    (entityTypeOf (okOr (fromSchemaFragments exChainFrags)) "B")
    rfl (by decide) rfl (by decide)

end CedarSchema
